import Mathlib

/-!
Verification of the online feature-retrieval engine
(`sdk/python/feast/feature_store.py`).

The development shallowly embeds the pipeline of `_get_online_features`:
reference grouping, entity-batch validation, deduplication of composite
entity keys, the online-store read coordinator, the response assembler
(echo columns, scatter of per-unique-key data, on-demand transform
augmentation) and the final column trim.

Modelling conventions:
  * protobuf `Value` objects are an abstract type `V`; the default
    `Value()` used as a null marker is the explicit parameter `nullV`;
  * protobuf `Timestamp` objects are `Nat`; a default-constructed
    `Timestamp()` is `0` (the epoch), `FromDatetime t` is `t` itself;
  * Python dicts keyed by strings are association lists updated with
    `upsert` (insertion order preserved, later assignment overwrites);
  * Python sets are lists deduplicated in first-insertion order
    (`dedupFirst`); only membership and cardinality of these are used;
  * the output slot that `apply_list_mapping` initializes with `None`
    is `Option.none`, so response vectors hold `Option` values;
  * feature reference strings `"view:feature"` are pairs `FeatureRef`;
    view and feature names are treated as opaque tokens (in particular
    the bare output name of `view:feat` is `feat`, matching
    `rpartition("__")` on names that do not themselves contain `__`);
  * raised exceptions are `Except.error` of a `FeastError`.
-/

/-- Presence marker of one feature value in one response row
(`FieldStatus.PRESENT` / `FieldStatus.NOT_FOUND`). -/
inductive FieldStatus where
  | present
  | notFound
deriving DecidableEq, Repr

/-- One `GetOnlineFeaturesResponse.FeatureVector`: three parallel columns.
Entries are `Option`-valued because `apply_list_mapping` pre-fills its
output with Python `None` placeholders. -/
structure FeatureVector (V : Type) where
  values : List (Option V)
  statuses : List (Option FieldStatus)
  eventTimestamps : List (Option Nat)
deriving DecidableEq, Repr

/-- The `GetOnlineFeaturesResponse` being assembled: parallel lists
`metadata.feature_names.val` and `results`. -/
structure Response (V : Type) where
  featureNames : List String
  results : List (FeatureVector V)
deriving DecidableEq, Repr

/-- A parsed feature reference `"view:feature"`. -/
structure FeatureRef where
  view : String
  feat : String
deriving DecidableEq, Repr

/-- A regular `FeatureView` as used by this pipeline: its name, the entity
names it joins on, the feature names it serves, and the projection's
join-key alias map (canonical join key to caller-facing alias). -/
structure FeatureView where
  name : String
  entities : List String
  features : List String
  joinKeyMap : List (String × String)
deriving DecidableEq, Repr

/-- An `OnDemandFeatureView`: output features, source feature-view
projections (view name with the features it provides) and the declared
request-data schema field names. -/
structure OnDemandFeatureView where
  name : String
  features : List String
  sourceProjections : List (String × List String)
  requestSchema : List String
deriving DecidableEq, Repr

/-- A deprecated `RequestFeatureView`: a pure passthrough of
caller-supplied fields. -/
structure RequestFeatureView where
  name : String
  features : List String
deriving DecidableEq, Repr

/-- The exceptions raised by the embedded pipeline code. -/
inductive FeastError where
  | invalidRequest (msg : String)
  | featureViewNotFound (viewName : String)
  | featureNotFound (viewName : String) (featName : String)
  | entityNotFound (name : String)
  | featureNameCollision (refs : List FeatureRef) (fullFeatureNames : Bool)
  | requestDataNotFound (names : List String)
deriving DecidableEq, Repr

/-- Association-list lookup, the model of Python dict indexing /
`dict.get`. -/
def alookup {α β : Type} [DecidableEq α] (k : α) : List (α × β) → Option β
  | [] => none
  | p :: l => if p.1 = k then some p.2 else alookup k l

/-- Python dict assignment `d[k] = v`: overwrite in place if the key
exists (keeping its position), otherwise append. -/
def upsert {α β : Type} [DecidableEq α] (l : List (α × β)) (k : α) (v : β) :
    List (α × β) :=
  if (alookup k l).isSome then
    l.map (fun p => if p.1 = k then (k, v) else p)
  else
    l ++ [(k, v)]

/-- Helper for `dedupFirst`, carrying the elements already seen. -/
def dedupFirstAux {α : Type} [DecidableEq α] (seen : List α) : List α → List α
  | [] => []
  | a :: l => if a ∈ seen then dedupFirstAux seen l
              else a :: dedupFirstAux (a :: seen) l

/-- Deduplicate a list keeping the first occurrence of each element:
the iteration order of a Python set / `Counter` built by insertion. -/
def dedupFirst {α : Type} [DecidableEq α] (l : List α) : List α :=
  dedupFirstAux [] l

/-- Fueled transpose implementing Python `zip(*rows)`: produce output
rows while no input list is exhausted, truncating at the shortest.
The fuel is instantiated with the length of the first list, which
bounds the output length. -/
def pyTransposeAux {α : Type} : Nat → List (List α) → List (List α)
  | 0, _ => []
  | n + 1, rows =>
    if rows.isEmpty || rows.any List.isEmpty then []
    else (rows.filterMap List.head?) :: pyTransposeAux n (rows.map List.tail)

/-- Python `list(zip(*rows))`. -/
def pyTranspose {α : Type} (rows : List (List α)) : List (List α) :=
  pyTransposeAux (match rows with | [] => 0 | r :: _ => r.length) rows

/-- The contiguous-group pass of `itertools.groupby` as used by
`_get_unique_entities`: split a list of `(originalIndex, key)` pairs
into maximal runs of equal keys, returning each run's key together
with the original indices in the run. -/
def groupRuns {K : Type} [DecidableEq K] : List (Nat × K) → List (K × List Nat)
  | [] => []
  | (i, k) :: rest =>
    match groupRuns rest with
    | [] => [(k, [i])]
    | (k2, is) :: gs =>
      if k = k2 then (k2, i :: is) :: gs else (k, [i]) :: (k2, is) :: gs

/-- The deduplication core of `_get_unique_entities`: enumerate the rowise
composite keys keeping the original index, sort by the key (Python
`list.sort` with `key=lambda row: row[1]`; any stable sort computes the
same list, here insertion sort), then run the contiguous-group pass.
`le` is the total order on composite key tuples. -/
def getUniqueEntities {K : Type} [DecidableEq K] (le : K → K → Bool)
    (rows : List K) : List (K × List Nat) :=
  groupRuns (List.insertionSort (fun a b => le a.2 b.2 = true) rows.enum)

/-- Inner loop of `apply_list_mapping`: write `some v` at every index of
`idxs` into `out` (`output[idx] = elem`). -/
def setAll {α : Type} (v : α) (out : List (Option α)) (idxs : List Nat) :
    List (Option α) :=
  idxs.foldl (fun o idx => o.set idx (some v)) out

/-- Outer loop of `apply_list_mapping` over `zip(lst, mapping_indexes)`. -/
def scatterAll {α : Type} (out : List (Option α))
    (pairs : List (α × List Nat)) : List (Option α) :=
  pairs.foldl (fun o p => setAll p.1 o p.2) out

/-- `apply_list_mapping`: pre-size the output to the sum of the index-list
lengths, filled with `None`, then scatter each element of `lst` to all
its destination indices. -/
def apply_list_mapping {α : Type} (lst : List α)
    (mappingIndexes : List (List Nat)) : List (Option α) :=
  scatterAll (List.replicate ((mappingIndexes.map List.length).sum) none)
    (lst.zip mappingIndexes)

/-! ### Basic lemmas about the helpers -/

theorem alookup_isSome_iff {α β : Type} [DecidableEq α] (k : α)
    (l : List (α × β)) : (alookup k l).isSome ↔ ∃ v, (k, v) ∈ l := by
  induction l with
  | nil => simp [alookup]
  | cons p t ih =>
    by_cases h : p.1 = k
    · subst h
      simp [alookup]
      exact ⟨p.2, Or.inl rfl⟩
    · simp only [alookup, if_neg h, ih]
      constructor
      · rintro ⟨v, hv⟩
        exact ⟨v, List.mem_cons_of_mem _ hv⟩
      · rintro ⟨v, hv⟩
        rcases List.mem_cons.1 hv with heq | hmem
        · exact absurd (congrArg Prod.fst heq).symm h
        · exact ⟨v, hmem⟩

theorem mem_dedupFirstAux {α : Type} [DecidableEq α] (seen : List α)
    (l : List α) (x : α) :
    x ∈ dedupFirstAux seen l ↔ x ∈ l ∧ x ∉ seen := by
  induction l generalizing seen with
  | nil => simp [dedupFirstAux]
  | cons a t ih =>
    by_cases ha : a ∈ seen
    · simp only [dedupFirstAux, if_pos ha, ih, List.mem_cons]
      constructor
      · rintro ⟨hx, hs⟩
        exact ⟨Or.inr hx, hs⟩
      · rintro ⟨rfl | hx, hs⟩
        · exact absurd ha hs
        · exact ⟨hx, hs⟩
    · simp only [dedupFirstAux, if_neg ha, List.mem_cons, ih, not_or]
      by_cases hxa : x = a
      · subst hxa
        simp [ha]
      · simp [hxa]

theorem mem_dedupFirst {α : Type} [DecidableEq α] (l : List α) (x : α) :
    x ∈ dedupFirst l ↔ x ∈ l := by
  simp [dedupFirst, mem_dedupFirstAux]

theorem dedupFirst_eq_nil_iff {α : Type} [DecidableEq α] (l : List α) :
    dedupFirst l = [] ↔ l = [] := by
  cases l with
  | nil => simp [dedupFirst, dedupFirstAux]
  | cons a t =>
    simp only [dedupFirst, dedupFirstAux]
    constructor
    · intro h
      simp at h
    · intro h
      exact absurd h (by simp)

/-- groupRuns yields the empty list only on the empty input. -/
theorem groupRuns_eq_nil_iff {K : Type} [DecidableEq K]
    (l : List (Nat × K)) : groupRuns l = [] ↔ l = [] := by
  cases l with
  | nil => simp [groupRuns]
  | cons p rest =>
    constructor
    · intro h
      obtain ⟨i, k⟩ := p
      simp only [groupRuns] at h
      rcases hg : groupRuns rest with _ | ⟨⟨k2, is⟩, gs⟩ <;> rw [hg] at h
      · simp at h
      · by_cases hk : k = k2 <;> simp [hk] at h
    · intro h
      exact absurd h (by simp)

/-- The concatenation of the index groups produced by `groupRuns` is
exactly the list of first components, in order. -/
theorem groupRuns_flatMap_snd {K : Type} [DecidableEq K]
    (l : List (Nat × K)) :
    (groupRuns l).flatMap (fun g => g.2) = l.map Prod.fst := by
  induction l with
  | nil => simp [groupRuns]
  | cons p rest ih =>
    obtain ⟨i, k⟩ := p
    simp only [groupRuns]
    rcases hg : groupRuns rest with _ | ⟨⟨k2, is⟩, gs⟩
    · have : rest = [] := (groupRuns_eq_nil_iff rest).1 hg
      subst this
      simp [List.flatMap]
    · rw [hg] at ih
      by_cases hk : k = k2
      · simp only [if_pos hk, List.flatMap_cons, List.map_cons]
        rw [← ih]
        simp [List.flatMap]
      · simp only [if_neg hk, List.flatMap_cons, List.map_cons]
        rw [← ih]
        simp [List.flatMap]

/-- Sum of group sizes from `groupRuns` equals the input length. -/
theorem groupRuns_sum_lengths {K : Type} [DecidableEq K]
    (l : List (Nat × K)) :
    ((groupRuns l).map (fun g => g.2.length)).sum = l.length := by
  have h1 : ((groupRuns l).flatMap (fun g => g.2)).length
      = (l.map Prod.fst).length := by rw [groupRuns_flatMap_snd]
  rw [List.length_flatMap, List.length_map] at h1
  simpa using h1

/-- The flattened index groups of `getUniqueEntities` are a permutation of
`range rows.length`. -/
theorem getUniqueEntities_flatMap_perm {K : Type} [DecidableEq K]
    (le : K → K → Bool) (rows : List K) :
    ((getUniqueEntities le rows).flatMap (fun g => g.2)).Perm
      (List.range rows.length) := by
  unfold getUniqueEntities
  rw [groupRuns_flatMap_snd]
  have hperm := List.perm_insertionSort
    (fun a b : Nat × K => le a.2 b.2 = true) rows.enum
  have := hperm.map Prod.fst
  rw [List.enum_map_fst] at this
  exact this

/-! ### Scatter (`apply_list_mapping`) lemmas -/

theorem setAll_cons {α : Type} (v : α) (out : List (Option α)) (i : Nat)
    (t : List Nat) : setAll v out (i :: t) = setAll v (out.set i (some v)) t :=
  rfl

theorem scatterAll_cons {α : Type} (out : List (Option α))
    (p : α × List Nat) (t : List (α × List Nat)) :
    scatterAll out (p :: t) = scatterAll (setAll p.1 out p.2) t :=
  rfl

theorem length_setAll {α : Type} (v : α) (idxs : List Nat) :
    ∀ out : List (Option α), (setAll v out idxs).length = out.length := by
  induction idxs with
  | nil => intro out; rfl
  | cons i t ih =>
    intro out
    rw [setAll_cons, ih, List.length_set]

theorem length_scatterAll {α : Type} (pairs : List (α × List Nat)) :
    ∀ out : List (Option α), (scatterAll out pairs).length = out.length := by
  induction pairs with
  | nil => intro out; rfl
  | cons p t ih =>
    intro out
    rw [scatterAll_cons, ih, length_setAll]

theorem length_apply_list_mapping {α : Type} (lst : List α)
    (mapping : List (List Nat)) :
    (apply_list_mapping lst mapping).length
      = (mapping.map List.length).sum := by
  rw [apply_list_mapping, length_scatterAll, List.length_replicate]

theorem getElem?_setAll_preserved {α : Type} (v : α) (idxs : List Nat) :
    ∀ (out : List (Option α)) (j : Nat), out[j]? = some (some v) →
      (setAll v out idxs)[j]? = some (some v) := by
  induction idxs with
  | nil => intro out j h; exact h
  | cons i t ih =>
    intro out j h
    rw [setAll_cons]
    refine ih _ _ ?_
    rw [List.getElem?_set]
    by_cases hij : i = j
    · subst hij
      have hlt : i < out.length := by
        by_contra hlen
        rw [List.getElem?_eq_none (Nat.le_of_not_lt hlen)] at h
        cases h
      simp [hlt]
    · simp [hij, h]

theorem getElem?_setAll_mem {α : Type} (v : α) (idxs : List Nat) :
    ∀ (out : List (Option α)) (j : Nat), j ∈ idxs → j < out.length →
      (setAll v out idxs)[j]? = some (some v) := by
  induction idxs with
  | nil => intro _ _ h _; cases h
  | cons i t ih =>
    intro out j hj hlt
    rw [setAll_cons]
    by_cases hjt : j ∈ t
    · exact ih _ _ hjt (by simpa using hlt)
    · have hji : j = i := by
        rcases List.mem_cons.1 hj with h | h
        · exact h
        · exact absurd h hjt
      subst hji
      refine getElem?_setAll_preserved v t _ j ?_
      rw [List.getElem?_set]
      simp [hlt]

theorem getElem?_setAll_not_mem {α : Type} (v : α) (idxs : List Nat) :
    ∀ (out : List (Option α)) (j : Nat), j ∉ idxs →
      (setAll v out idxs)[j]? = out[j]? := by
  induction idxs with
  | nil => intro _ _ _; rfl
  | cons i t ih =>
    intro out j hj
    have hji : i ≠ j := fun h => hj (h ▸ List.mem_cons_self i t)
    have hjt : j ∉ t := fun h => hj (List.mem_cons_of_mem _ h)
    rw [setAll_cons, ih _ _ hjt, List.getElem?_set, if_neg hji]

theorem getElem?_scatterAll_not_mem {α : Type} (pairs : List (α × List Nat)) :
    ∀ (out : List (Option α)) (j : Nat), (∀ p ∈ pairs, j ∉ p.2) →
      (scatterAll out pairs)[j]? = out[j]? := by
  induction pairs with
  | nil => intro _ _ _; rfl
  | cons p t ih =>
    intro out j hj
    rw [scatterAll_cons, ih _ _ (fun q hq => hj q (List.mem_cons_of_mem _ hq)),
      getElem?_setAll_not_mem _ _ _ _ (hj p (List.mem_cons_self p t))]

theorem getElem?_scatterAll_mem {α : Type} (lst : List α)
    (mapping : List (List Nat)) (out : List (Option α))
    (hnd : (mapping.flatMap id).Nodup)
    (hb : ∀ j ∈ mapping.flatMap id, j < out.length)
    (i : Nat) (hil : i < lst.length) (him : i < mapping.length)
    (j : Nat) (hj : j ∈ mapping.get ⟨i, him⟩) :
    (scatterAll out (lst.zip mapping))[j]? = some (some (lst.get ⟨i, hil⟩)) := by
  induction mapping generalizing lst out i with
  | nil => exact absurd him (by simp)
  | cons L mt ih =>
    rcases lst with _ | ⟨a, lt⟩
    · exact absurd hil (by simp)
    rw [List.zip_cons_cons, scatterAll_cons]
    have hndt : (mt.flatMap id).Nodup := by
      rw [List.flatMap_cons, List.nodup_append] at hnd
      exact hnd.2.1
    cases i with
    | zero =>
      have hjL : j ∈ L := by simpa using hj
      have hdisj : ∀ p ∈ lt.zip mt, j ∉ p.2 := by
        intro p hp hjp
        have hp2 : p.2 ∈ mt := (List.of_mem_zip hp).2
        have hjmt : j ∈ mt.flatMap id := List.mem_flatMap.2 ⟨p.2, hp2, hjp⟩
        rw [List.flatMap_cons, List.nodup_append] at hnd
        exact hnd.2.2 hjL hjmt
      rw [getElem?_scatterAll_not_mem (lt.zip mt) (setAll a out L) j hdisj]
      refine getElem?_setAll_mem a L out j hjL ?_
      exact hb j (List.mem_flatMap.2 ⟨L, List.mem_cons_self L mt, hjL⟩)
    | succ i2 =>
      have hj2 : j ∈ mt.get ⟨i2, by simpa using him⟩ := by simpa using hj
      have hb2 : ∀ k ∈ mt.flatMap id, k < (setAll a out L).length := by
        intro k hk
        rw [length_setAll]
        exact hb k (by rw [List.flatMap_cons]; exact List.mem_append_right _ hk)
      have := ih lt (setAll a out L) hndt hb2 i2 (by simpa using hil)
        (by simpa using him) hj2
      simpa using this

/-- Claim C1: for every table and entity batch, the sort-then-group
deduplication (`_get_unique_entities`) produces index lists that
partition `{0..N-1}` exactly: flattened they are a permutation of
`range N` (so every original row index appears in exactly one group,
with no overlaps and no gaps), and the group sizes sum to `N`. -/
theorem unique_entities_partition {K : Type} [DecidableEq K]
    (le : K → K → Bool) (rows : List K) :
    ((getUniqueEntities le rows).flatMap (fun g => g.2)).Perm
        (List.range rows.length)
      ∧ ((getUniqueEntities le rows).flatMap (fun g => g.2)).Nodup
      ∧ (∀ j, j < rows.length ↔
          ∃ g ∈ getUniqueEntities le rows, j ∈ g.2)
      ∧ ((getUniqueEntities le rows).map (fun g => g.2.length)).sum
          = rows.length := by
  have hperm := getUniqueEntities_flatMap_perm le rows
  refine ⟨hperm, ?_, ?_, ?_⟩
  · exact hperm.nodup_iff.2 (List.nodup_range rows.length)
  · intro j
    rw [← List.mem_range (n := rows.length), ← hperm.mem_iff]
    simp [List.mem_flatMap]
  · unfold getUniqueEntities
    rw [groupRuns_sum_lengths]
    have hlen := (List.perm_insertionSort
      (fun a b : Nat × K => le a.2 b.2 = true) rows.enum).length_eq
    rw [hlen, List.enum_length]

/-- Claim C2: the scatter step (`apply_list_mapping`) assigns, for each
unique-key position `i` with index list `L_i`, that position's element to
every row index in `L_i`, with no aggregation.  The hypothesis is exactly
the UniqueKeySet partition invariant established by deduplication.  The
statement is polymorphic in the element type, so it covers the value,
status and timestamp columns alike; in particular all rows sharing a
composite key receive the identical element `lst[i]`. -/
theorem apply_list_mapping_scatter {α : Type} (lst : List α)
    (mapping : List (List Nat))
    (hpart : (mapping.flatMap id).Perm
      (List.range ((mapping.map List.length).sum)))
    (i : Nat) (hil : i < lst.length) (him : i < mapping.length) :
    ∀ j ∈ mapping.get ⟨i, him⟩,
      (apply_list_mapping lst mapping)[j]? = some (some (lst.get ⟨i, hil⟩)) := by
  intro j hj
  have hnd : (mapping.flatMap id).Nodup :=
    hpart.nodup_iff.2 (List.nodup_range _)
  have hb : ∀ k ∈ mapping.flatMap id,
      k < (List.replicate ((mapping.map List.length).sum)
        (none : Option α)).length := by
    intro k hk
    rw [List.length_replicate]
    exact List.mem_range.1 (hpart.mem_iff.1 hk)
  exact getElem?_scatterAll_mem lst mapping _ hnd hb i hil him j hj

/-- Witness for C2 at a concrete input: batch of three rows where rows 0
and 2 share a composite key; both receive the first unique key's element,
row 1 receives the second's. -/
theorem apply_list_mapping_scatter_witness :
    (apply_list_mapping [10, 20] [[0, 2], [1]])[0]? = some (some 10)
      ∧ (apply_list_mapping [10, 20] [[0, 2], [1]])[2]? = some (some 10)
      ∧ (apply_list_mapping [10, 20] [[0, 2], [1]])[1]? = some (some 20) := by
  refine ⟨?_, ?_, ?_⟩
  · exact apply_list_mapping_scatter [10, 20] [[0, 2], [1]] (by decide)
      0 (by decide) (by decide) 0 (by decide)
  · exact apply_list_mapping_scatter [10, 20] [[0, 2], [1]] (by decide)
      0 (by decide) (by decide) 2 (by decide)
  · exact apply_list_mapping_scatter [10, 20] [[0, 2], [1]] (by decide)
      1 (by decide) (by decide) 1 (by decide)

/-! ### Backend read coordinator (`_read_from_online_store`) -/

/-- One iteration of the normalization loop of `_read_from_online_store`.
A backend row is `(row_ts, feature_data)` where `row_ts` is an optional
write timestamp and `feature_data` an optional map from feature name to
value (`None` on a whole-key miss).  The timestamp proto defaults to the
epoch (`0`) when the backend reports none; `nullV` is the default
`Value()` used for missing features. -/
def readRow {V : Type} (nullV : V) (requestedFeatures : List String)
    (row : Option Nat × Option (List (String × V))) :
    List Nat × List FieldStatus × List V :=
  let rowTs : Nat :=
    match row.1 with
    | none => 0
    | some t => t
  let eventTimestamps := List.replicate requestedFeatures.length rowTs
  match row.2 with
  | none =>
    (eventTimestamps,
     List.replicate requestedFeatures.length FieldStatus.notFound,
     List.replicate requestedFeatures.length nullV)
  | some featureData =>
    (eventTimestamps,
     requestedFeatures.map (fun f =>
       if (alookup f featureData).isSome then FieldStatus.present
       else FieldStatus.notFound),
     requestedFeatures.map (fun f => (alookup f featureData).getD nullV))

/-- `_read_from_online_store`: normalize every backend row, preserving
the order of `requested_features` in each produced triple
`(event_timestamps, statuses, values)`. -/
def readFromOnlineStore {V : Type} (nullV : V)
    (readRows : List (Option Nat × Option (List (String × V))))
    (requestedFeatures : List String) :
    List (List Nat × List FieldStatus × List V) :=
  readRows.map (readRow nullV requestedFeatures)

/-- Claim C4: per backend row, a whole-key miss yields `NOT_FOUND` status
and the null value for every requested feature; a partial hit yields, in
requested-feature order, `PRESENT` with the returned value exactly for
the features found in the map and `NOT_FOUND` with the null value for
the rest; and the row's single write timestamp (epoch if absent) is
replicated across all features fetched for that key. -/
theorem read_from_online_store_spec {V : Type} (nullV : V)
    (readRows : List (Option Nat × Option (List (String × V))))
    (requestedFeatures : List String) (k : Nat) (hk : k < readRows.length) :
    (readFromOnlineStore nullV readRows requestedFeatures)[k]?
        = some (readRow nullV requestedFeatures (readRows.get ⟨k, hk⟩))
      ∧ (∀ row : Option Nat × Option (List (String × V)),
          (readRow nullV requestedFeatures row).1
            = List.replicate requestedFeatures.length (row.1.getD 0))
      ∧ (∀ row : Option Nat × Option (List (String × V)), row.2 = none →
          (readRow nullV requestedFeatures row).2.1
              = List.replicate requestedFeatures.length FieldStatus.notFound
            ∧ (readRow nullV requestedFeatures row).2.2
              = List.replicate requestedFeatures.length nullV)
      ∧ (∀ (row : Option Nat × Option (List (String × V)))
          (featureData : List (String × V)), row.2 = some featureData →
          ∀ (i : Nat) (hi : i < requestedFeatures.length),
            (readRow nullV requestedFeatures row).2.1[i]?
                = some (if (alookup (requestedFeatures.get ⟨i, hi⟩)
                    featureData).isSome
                  then FieldStatus.present else FieldStatus.notFound)
              ∧ (readRow nullV requestedFeatures row).2.2[i]?
                = some ((alookup (requestedFeatures.get ⟨i, hi⟩)
                    featureData).getD nullV)) := by
  refine ⟨?_, ?_, ?_, ?_⟩
  · rw [readFromOnlineStore, List.getElem?_map, List.getElem?_eq_getElem hk]
    rfl
  · intro row
    cases hfd : row.2 <;> cases hts : row.1 <;>
      simp [readRow, hfd, hts]
  · intro row hrow
    cases hts : row.1 <;> simp [readRow, hrow, hts]
  · intro row featureData hrow i hi
    cases hts : row.1 <;>
      simp [readRow, hrow, hts, List.getElem?_map, List.getElem?_eq_getElem hi]

/-- Witness for C4 at a concrete input: two requested features, row 0 is
a partial hit (only feature a present, timestamp 5), row 1 a whole-key
miss. -/
theorem read_from_online_store_spec_witness :
    (readFromOnlineStore (0 : Nat)
        [(some 5, some [("a", 7)]), (none, none)] ["a", "b"])[1]?
      = some (readRow 0 ["a", "b"]
          (([(some 5, some [("a", 7)]), (none, none)] :
            List (Option Nat × Option (List (String × Nat)))).get
            ⟨1, by decide⟩)) :=
  (read_from_online_store_spec 0
    [(some 5, some [("a", 7)]), (none, none)] ["a", "b"] 1 (by decide)).1

/-! ### Collision validation (`_validate_feature_refs`) -/

/-- `_validate_feature_refs`: returns the list of collided feature
references (the function raises `FeatureNameCollisionError` exactly when
this list is nonempty).  With `full_feature_names` collisions are
counted on the whole reference; otherwise on the bare feature name, and
every reference bearing a collided feature name is reported. -/
def validateFeatureRefs (featureRefs : List FeatureRef)
    (fullFeatureNames : Bool) : List FeatureRef :=
  if fullFeatureNames then
    (dedupFirst featureRefs).filter (fun r => 1 < featureRefs.count r)
  else
    let featureNames := featureRefs.map (fun r => r.feat)
    let collidedFeatureNames :=
      (dedupFirst featureNames).filter (fun n => 1 < featureNames.count n)
    collidedFeatureNames.flatMap
      (fun n => featureRefs.filter (fun r => r.feat = n))

theorem not_nodup_iff_exists_one_lt_count {α : Type} [DecidableEq α]
    (l : List α) : ¬ l.Nodup ↔ ∃ a ∈ l, 1 < l.count a := by
  rw [List.nodup_iff_count_le_one]
  push_neg
  constructor
  · rintro ⟨a, ha⟩
    have hmem : a ∈ l := by
      by_contra hmem
      rw [List.count_eq_zero_of_not_mem hmem] at ha
      omega
    exact ⟨a, hmem, ha⟩
  · rintro ⟨a, _, ha⟩
    exact ⟨a, ha⟩

theorem validateFeatureRefs_true_def (featureRefs : List FeatureRef) :
    validateFeatureRefs featureRefs true
      = (dedupFirst featureRefs).filter
          (fun r => 1 < featureRefs.count r) :=
  rfl

theorem validateFeatureRefs_false_def (featureRefs : List FeatureRef) :
    validateFeatureRefs featureRefs false
      = ((dedupFirst (featureRefs.map (fun r => r.feat))).filter
          (fun n => 1 < (featureRefs.map (fun r => r.feat)).count n)).flatMap
        (fun n => featureRefs.filter (fun r => r.feat = n)) :=
  rfl

theorem validateFeatureRefs_true_ne_nil_iff (featureRefs : List FeatureRef) :
    validateFeatureRefs featureRefs true ≠ [] ↔ ¬ featureRefs.Nodup := by
  rw [not_nodup_iff_exists_one_lt_count]
  rw [validateFeatureRefs_true_def]
  rw [Ne, List.filter_eq_nil_iff]
  push_neg
  constructor
  · rintro ⟨r, hr, hc⟩
    exact ⟨r, (mem_dedupFirst _ _).1 hr, by simpa using hc⟩
  · rintro ⟨r, hr, hc⟩
    exact ⟨r, (mem_dedupFirst _ _).2 hr, by simpa using hc⟩

theorem validateFeatureRefs_false_ne_nil_iff (featureRefs : List FeatureRef) :
    validateFeatureRefs featureRefs false ≠ []
      ↔ ¬ (featureRefs.map (fun r => r.feat)).Nodup := by
  rw [not_nodup_iff_exists_one_lt_count]
  rw [validateFeatureRefs_false_def]
  rw [Ne, List.flatMap_eq_nil_iff]
  push_neg
  constructor
  · rintro ⟨n, hn, hne⟩
    rw [List.mem_filter] at hn
    exact ⟨n, (mem_dedupFirst _ _).1 hn.1, by simpa using hn.2⟩
  · rintro ⟨n, hn, hc⟩
    refine ⟨n, List.mem_filter.2 ⟨(mem_dedupFirst _ _).2 hn, by simpa using hc⟩, ?_⟩
    rw [List.mem_map] at hn
    obtain ⟨r, hr, hfeat⟩ := hn
    intro hnil
    rw [List.filter_eq_nil_iff] at hnil
    exact hnil r hr (by simpa using hfeat)

/-- Claim C5: with qualified naming (`full_feature_names = true`) a
collision is reported exactly when two references coincide entirely;
with bare naming exactly when two references share the bare feature name
(even across different tables); the reported list contains every
colliding reference; and a pair of references to the same feature name
in two distinct tables passes in qualified mode but fails in bare mode. -/
theorem validate_feature_refs_spec (featureRefs : List FeatureRef) :
    (validateFeatureRefs featureRefs true ≠ [] ↔ ¬ featureRefs.Nodup)
      ∧ (validateFeatureRefs featureRefs false ≠ []
          ↔ ¬ (featureRefs.map (fun r => r.feat)).Nodup)
      ∧ (∀ r ∈ featureRefs, 1 < featureRefs.count r →
          r ∈ validateFeatureRefs featureRefs true)
      ∧ (∀ r ∈ featureRefs,
          1 < (featureRefs.map (fun r2 => r2.feat)).count r.feat →
          r ∈ validateFeatureRefs featureRefs false)
      ∧ (∀ v1 v2 f, v1 ≠ v2 →
          validateFeatureRefs [⟨v1, f⟩, ⟨v2, f⟩] true = []
            ∧ validateFeatureRefs [⟨v1, f⟩, ⟨v2, f⟩] false ≠ []) := by
  refine ⟨validateFeatureRefs_true_ne_nil_iff featureRefs,
    validateFeatureRefs_false_ne_nil_iff featureRefs, ?_, ?_, ?_⟩
  · intro r hr hc
    rw [validateFeatureRefs_true_def, List.mem_filter]
    exact ⟨(mem_dedupFirst _ _).2 hr, by simpa using hc⟩
  · intro r hr hc
    rw [validateFeatureRefs_false_def, List.mem_flatMap]
    refine ⟨r.feat, ?_, ?_⟩
    · rw [List.mem_filter]
      exact ⟨(mem_dedupFirst _ _).2 (List.mem_map_of_mem _ hr),
        by simpa using hc⟩
    · rw [List.mem_filter]
      exact ⟨hr, by simp⟩
  · intro v1 v2 f hv
    have hne : (⟨v1, f⟩ : FeatureRef) ≠ ⟨v2, f⟩ := by
      intro h
      exact hv (congrArg FeatureRef.view h)
    constructor
    · by_contra hcol
      have := (validateFeatureRefs_true_ne_nil_iff [⟨v1, f⟩, ⟨v2, f⟩]).1 hcol
      exact this (by simp [hne])
    · rw [validateFeatureRefs_false_ne_nil_iff]
      simp

/-- Witness for C5: the spec scenario `["fvA:amount", "fvB:amount"]`
passes in qualified naming mode and collides in bare naming mode. -/
theorem validate_feature_refs_spec_witness :
    validateFeatureRefs [⟨"fvA", "amount"⟩, ⟨"fvB", "amount"⟩] true = []
      ∧ validateFeatureRefs [⟨"fvA", "amount"⟩, ⟨"fvB", "amount"⟩] false
          ≠ [] :=
  (validate_feature_refs_spec [⟨"fvA", "amount"⟩, ⟨"fvB", "amount"⟩]).2.2.2.2
    "fvA" "fvB" "amount" (by decide)

/-! ### Reference grouping (`_group_feature_refs`) -/

/-- `view_index` lookup: find a registered view by its projection name.
(the source builds a dict keyed by `projection.name_to_use()`; names are
unique among registered views, enforced by `_validate_feature_views`). -/
def findFv (allFvs : List FeatureView) (viewName : String) :
    Option FeatureView :=
  allFvs.find? (fun v => v.name = viewName)

/-- `on_demand_view_index` lookup. -/
def findOdfv (allOdfvs : List OnDemandFeatureView) (viewName : String) :
    Option OnDemandFeatureView :=
  allOdfvs.find? (fun v => v.name = viewName)

/-- `request_view_index` lookup. -/
def findRfv (allRfvs : List RequestFeatureView) (viewName : String) :
    Option RequestFeatureView :=
  allRfvs.find? (fun v => v.name = viewName)

/-- `views_features[view_name].add(feat_name)` on a `defaultdict(set)`:
view keys keep first-insertion order, each feature set is a list
deduplicated in insertion order. -/
def addFeature (acc : List (String × List String)) (viewName feat : String) :
    List (String × List String) :=
  match alookup viewName acc with
  | none => acc ++ [(viewName, [feat])]
  | some feats =>
    if feat ∈ feats then acc
    else acc.map (fun p => if p.1 = viewName then (p.1, p.2 ++ [feat]) else p)

/-- The transitive pull of an on-demand view's source features
(`for input_fv_projection in ...source_feature_view_projections.values():
for input_feat in input_fv_projection.features: views_features[...].add`). -/
def addSourceFeatures (acc : List (String × List String))
    (sourceProjections : List (String × List String)) :
    List (String × List String) :=
  sourceProjections.foldl
    (fun a sp => sp.2.foldl (fun a2 f => addFeature a2 sp.1 f) a) acc

/-- Grouping result of `_group_feature_refs`. -/
structure GroupedRefs where
  fvs : List (FeatureView × List String)
  odfvs : List (OnDemandFeatureView × List String)
  rfvs : List (RequestFeatureView × List String)
  requestViewRefs : List FeatureRef
deriving DecidableEq, Repr

/-- The reference loop of `_group_feature_refs`: resolve each reference's
view among standard views first, then on-demand views, then the
deprecated request views; an unknown view raises
`FeatureViewNotFoundException(view_name)`, an unknown feature of a known
view fails `projection.get_feature` validation. -/
def groupFeatureRefsAux (allFvs : List FeatureView)
    (allOdfvs : List OnDemandFeatureView) (allRfvs : List RequestFeatureView) :
    List FeatureRef → List (String × List String) →
    List (String × List String) → List (String × List String) →
    List FeatureRef →
    Except FeastError (List (String × List String) ×
      List (String × List String) × List (String × List String) ×
      List FeatureRef)
  | [], vf, odf, rqf, rrefs => .ok (vf, odf, rqf, rrefs)
  | r :: rest, vf, odf, rqf, rrefs =>
    match findFv allFvs r.view with
    | some v =>
      if r.feat ∈ v.features then
        groupFeatureRefsAux allFvs allOdfvs allRfvs rest
          (addFeature vf r.view r.feat) odf rqf rrefs
      else .error (.featureNotFound r.view r.feat)
    | none =>
      match findOdfv allOdfvs r.view with
      | some o =>
        if r.feat ∈ o.features then
          groupFeatureRefsAux allFvs allOdfvs allRfvs rest
            (addSourceFeatures vf o.sourceProjections)
            (addFeature odf r.view r.feat) rqf rrefs
        else .error (.featureNotFound r.view r.feat)
      | none =>
        match findRfv allRfvs r.view with
        | some q =>
          if r.feat ∈ q.features then
            groupFeatureRefsAux allFvs allOdfvs allRfvs rest
              vf odf (addFeature rqf r.view r.feat)
              (if r ∈ rrefs then rrefs else rrefs ++ [r])
          else .error (.featureNotFound r.view r.feat)
        | none => .error (.featureViewNotFound r.view)

/-- `_group_feature_refs`: run the reference loop, then materialize the
accumulated name-to-features maps against the view indexes.  (The source
indexes `view_index[view_name]` directly, which assumes every recorded
name is registered; a name recorded from an unregistered on-demand
source projection would raise in Python and is skipped here.) -/
def groupFeatureRefs (features : List FeatureRef) (allFvs : List FeatureView)
    (allOdfvs : List OnDemandFeatureView)
    (allRfvs : List RequestFeatureView) : Except FeastError GroupedRefs :=
  match groupFeatureRefsAux allFvs allOdfvs allRfvs features [] [] [] [] with
  | .error e => .error e
  | .ok (vf, odf, rqf, rrefs) =>
    .ok { fvs := vf.filterMap (fun p =>
            (findFv allFvs p.1).map (fun v => (v, p.2))),
          odfvs := odf.filterMap (fun p =>
            (findOdfv allOdfvs p.1).map (fun o => (o, p.2))),
          rfvs := rqf.filterMap (fun p =>
            (findRfv allRfvs p.1).map (fun q => (q, p.2))),
          requestViewRefs := rrefs }

/-- Feature-existence validation (`projection.get_feature`) succeeds for
a reference, relative to the view that the priority order resolves it
to; vacuous for unknown views. -/
def refFeatureValid (allFvs : List FeatureView)
    (allOdfvs : List OnDemandFeatureView) (allRfvs : List RequestFeatureView)
    (r : FeatureRef) : Bool :=
  match findFv allFvs r.view with
  | some v => r.feat ∈ v.features
  | none =>
    match findOdfv allOdfvs r.view with
    | some o => r.feat ∈ o.features
    | none =>
      match findRfv allRfvs r.view with
      | some q => r.feat ∈ q.features
      | none => true

/-- The accumulated map records `feat` under `view`. -/
def hasFeat (acc : List (String × List String)) (view feat : String) : Prop :=
  ∃ feats, alookup view acc = some feats ∧ feat ∈ feats

theorem alookup_mem {α β : Type} [DecidableEq α] (k : α) (l : List (α × β))
    (b : β) (h : alookup k l = some b) : (k, b) ∈ l := by
  induction l with
  | nil => cases h
  | cons p t ih =>
    rw [alookup] at h
    by_cases hp : p.1 = k
    · rw [if_pos hp] at h
      injection h with h2
      have hpb : p = (k, b) := Prod.ext_iff.2 ⟨hp, h2⟩
      rw [← hpb]
      exact List.mem_cons_self _ _
    · rw [if_neg hp] at h
      exact List.mem_cons_of_mem _ (ih h)

theorem alookup_append {α β : Type} [DecidableEq α] (k : α)
    (l1 l2 : List (α × β)) :
    alookup k (l1 ++ l2)
      = match alookup k l1 with
        | some b => some b
        | none => alookup k l2 := by
  induction l1 with
  | nil => rfl
  | cons p t ih =>
    by_cases hp : p.1 = k
    · simp [alookup, hp]
    · simp only [List.cons_append, alookup, if_neg hp]
      exact ih

theorem alookup_map_update {α β : Type} [DecidableEq α]
    (acc : List (α × β)) (k : α) (g : β → β) (view : α) :
    alookup view (acc.map (fun p => if p.1 = k then (p.1, g p.2) else p))
      = if view = k then (alookup view acc).map g else alookup view acc := by
  induction acc with
  | nil => by_cases h : view = k <;> simp [alookup, h]
  | cons p t ih =>
    by_cases hpk : p.1 = k
    · by_cases hvk : view = k
      · have hpv : p.1 = view := by rw [hpk, hvk]
        simp [alookup, hpk, hpv, hvk, ih]
      · have hkv : ¬ k = view := fun h => hvk h.symm
        have hpv : ¬ p.1 = view := by rw [hpk]; exact hkv
        simp [alookup, hpk, hpv, hvk, hkv, ih]
    · by_cases hpv : p.1 = view
      · have hvk : ¬ view = k := by rw [← hpv]; exact fun h => hpk h
        simp [alookup, hpk, hpv, hvk]
      · simp [alookup, hpk, hpv, ih]

theorem addFeature_of_none (acc : List (String × List String))
    (view feat : String) (h : alookup view acc = none) :
    addFeature acc view feat = acc ++ [(view, [feat])] := by
  unfold addFeature
  rw [h]

theorem addFeature_of_some_mem (acc : List (String × List String))
    (view feat : String) (feats : List String)
    (h : alookup view acc = some feats) (hf : feat ∈ feats) :
    addFeature acc view feat = acc := by
  unfold addFeature
  rw [h]
  exact if_pos hf

theorem addFeature_of_some_not_mem (acc : List (String × List String))
    (view feat : String) (feats : List String)
    (h : alookup view acc = some feats) (hf : feat ∉ feats) :
    addFeature acc view feat
      = acc.map (fun p => if p.1 = view then (p.1, p.2 ++ [feat]) else p) := by
  unfold addFeature
  rw [h]
  exact if_neg hf

theorem hasFeat_addFeature_self (acc : List (String × List String))
    (view feat : String) : hasFeat (addFeature acc view feat) view feat := by
  cases hl : alookup view acc with
  | none =>
    rw [addFeature_of_none acc view feat hl]
    refine ⟨[feat], ?_, by simp⟩
    rw [alookup_append, hl]
    simp [alookup]
  | some feats =>
    by_cases hf : feat ∈ feats
    · rw [addFeature_of_some_mem acc view feat feats hl hf]
      exact ⟨feats, hl, hf⟩
    · rw [addFeature_of_some_not_mem acc view feat feats hl hf]
      refine ⟨feats ++ [feat], ?_, by simp⟩
      rw [alookup_map_update acc view (fun l => l ++ [feat]) view, if_pos rfl,
        hl]
      rfl

theorem hasFeat_addFeature_of (acc : List (String × List String))
    (view feat view2 feat2 : String) (h : hasFeat acc view2 feat2) :
    hasFeat (addFeature acc view feat) view2 feat2 := by
  obtain ⟨feats2, hl2, hf2⟩ := h
  cases hl : alookup view acc with
  | none =>
    rw [addFeature_of_none acc view feat hl]
    refine ⟨feats2, ?_, hf2⟩
    rw [alookup_append, hl2]
  | some feats =>
    by_cases hf : feat ∈ feats
    · rw [addFeature_of_some_mem acc view feat feats hl hf]
      exact ⟨feats2, hl2, hf2⟩
    · rw [addFeature_of_some_not_mem acc view feat feats hl hf]
      rw [hasFeat]
      rw [alookup_map_update acc view (fun l => l ++ [feat]) view2]
      by_cases hv : view2 = view
      · rw [if_pos hv, hl2]
        exact ⟨feats2 ++ [feat], rfl, List.mem_append_left _ hf2⟩
      · rw [if_neg hv]
        exact ⟨feats2, hl2, hf2⟩

theorem hasFeat_addSourceFeatures_of (sourceProjections :
    List (String × List String)) :
    ∀ (acc : List (String × List String)) (view2 feat2 : String),
      hasFeat acc view2 feat2 →
      hasFeat (addSourceFeatures acc sourceProjections) view2 feat2 := by
  induction sourceProjections with
  | nil => intro acc view2 feat2 h; exact h
  | cons sp spt ih =>
    intro acc view2 feat2 h
    rw [addSourceFeatures, List.foldl_cons]
    refine ih _ _ _ ?_
    clear ih
    induction sp.2 generalizing acc with
    | nil => exact h
    | cons f ft ihf =>
      rw [List.foldl_cons]
      exact ihf _ (hasFeat_addFeature_of _ _ _ _ _ h)

/-- The reference's view name matches none of the three table kinds. -/
def viewUnknown (allFvs : List FeatureView)
    (allOdfvs : List OnDemandFeatureView) (allRfvs : List RequestFeatureView)
    (r : FeatureRef) : Prop :=
  findFv allFvs r.view = none ∧ findOdfv allOdfvs r.view = none
    ∧ findRfv allRfvs r.view = none

theorem groupFeatureRefsAux_mono (allFvs : List FeatureView)
    (allOdfvs : List OnDemandFeatureView) (allRfvs : List RequestFeatureView) :
    ∀ (refs : List FeatureRef) (vf odf rqf : List (String × List String))
      (rrefs : List FeatureRef)
      (out : List (String × List String) × List (String × List String) ×
        List (String × List String) × List FeatureRef),
      groupFeatureRefsAux allFvs allOdfvs allRfvs refs vf odf rqf rrefs
          = .ok out →
      (∀ view feat, hasFeat vf view feat → hasFeat out.1 view feat)
      ∧ (∀ view feat, hasFeat odf view feat → hasFeat out.2.1 view feat)
      ∧ (∀ view feat, hasFeat rqf view feat → hasFeat out.2.2.1 view feat) := by
  intro refs
  induction refs with
  | nil =>
    intro vf odf rqf rrefs out hok
    simp only [groupFeatureRefsAux] at hok
    injection hok with h
    subst h
    exact ⟨fun _ _ h => h, fun _ _ h => h, fun _ _ h => h⟩
  | cons r rest ih =>
    intro vf odf rqf rrefs out hok
    cases hfv : findFv allFvs r.view with
    | some v =>
      simp only [groupFeatureRefsAux, hfv] at hok
      by_cases hf : r.feat ∈ v.features
      · rw [if_pos hf] at hok
        obtain ⟨m1, m2, m3⟩ := ih _ _ _ _ _ hok
        exact ⟨fun view feat h =>
          m1 view feat (hasFeat_addFeature_of _ _ _ _ _ h), m2, m3⟩
      · rw [if_neg hf] at hok
        cases hok
    | none =>
      cases hodfv : findOdfv allOdfvs r.view with
      | some o =>
        simp only [groupFeatureRefsAux, hfv, hodfv] at hok
        by_cases hf : r.feat ∈ o.features
        · rw [if_pos hf] at hok
          obtain ⟨m1, m2, m3⟩ := ih _ _ _ _ _ hok
          exact ⟨fun view feat h =>
              m1 view feat (hasFeat_addSourceFeatures_of _ _ _ _ h),
            fun view feat h =>
              m2 view feat (hasFeat_addFeature_of _ _ _ _ _ h), m3⟩
        · rw [if_neg hf] at hok
          cases hok
      | none =>
        cases hrfv : findRfv allRfvs r.view with
        | some q =>
          simp only [groupFeatureRefsAux, hfv, hodfv, hrfv] at hok
          by_cases hf : r.feat ∈ q.features
          · rw [if_pos hf] at hok
            obtain ⟨m1, m2, m3⟩ := ih _ _ _ _ _ hok
            exact ⟨m1, m2, fun view feat h =>
              m3 view feat (hasFeat_addFeature_of _ _ _ _ _ h)⟩
          · rw [if_neg hf] at hok
            cases hok
        | none =>
          simp only [groupFeatureRefsAux, hfv, hodfv, hrfv] at hok
          cases hok

theorem groupFeatureRefsAux_error (allFvs : List FeatureView)
    (allOdfvs : List OnDemandFeatureView) (allRfvs : List RequestFeatureView) :
    ∀ (refs : List FeatureRef) (vf odf rqf : List (String × List String))
      (rrefs : List FeatureRef) (v : String),
      groupFeatureRefsAux allFvs allOdfvs allRfvs refs vf odf rqf rrefs
          = .error (.featureViewNotFound v) →
      ∃ r ∈ refs, r.view = v ∧ viewUnknown allFvs allOdfvs allRfvs r := by
  intro refs
  induction refs with
  | nil =>
    intro vf odf rqf rrefs v herr
    simp only [groupFeatureRefsAux] at herr
    cases herr
  | cons r rest ih =>
    intro vf odf rqf rrefs v herr
    cases hfv : findFv allFvs r.view with
    | some fv =>
      simp only [groupFeatureRefsAux, hfv] at herr
      by_cases hf : r.feat ∈ fv.features
      · rw [if_pos hf] at herr
        obtain ⟨r2, hr2, hview, hunk⟩ := ih _ _ _ _ _ herr
        exact ⟨r2, List.mem_cons_of_mem _ hr2, hview, hunk⟩
      · rw [if_neg hf] at herr
        cases herr
    | none =>
      cases hodfv : findOdfv allOdfvs r.view with
      | some o =>
        simp only [groupFeatureRefsAux, hfv, hodfv] at herr
        by_cases hf : r.feat ∈ o.features
        · rw [if_pos hf] at herr
          obtain ⟨r2, hr2, hview, hunk⟩ := ih _ _ _ _ _ herr
          exact ⟨r2, List.mem_cons_of_mem _ hr2, hview, hunk⟩
        · rw [if_neg hf] at herr
          cases herr
      | none =>
        cases hrfv : findRfv allRfvs r.view with
        | some q =>
          simp only [groupFeatureRefsAux, hfv, hodfv, hrfv] at herr
          by_cases hf : r.feat ∈ q.features
          · rw [if_pos hf] at herr
            obtain ⟨r2, hr2, hview, hunk⟩ := ih _ _ _ _ _ herr
            exact ⟨r2, List.mem_cons_of_mem _ hr2, hview, hunk⟩
          · rw [if_neg hf] at herr
            cases herr
        | none =>
          simp only [groupFeatureRefsAux, hfv, hodfv, hrfv] at herr
          injection herr with h
          injection h with h2
          exact ⟨r, List.mem_cons_self _ _, h2, hfv, hodfv, hrfv⟩

theorem groupFeatureRefsAux_error_exists (allFvs : List FeatureView)
    (allOdfvs : List OnDemandFeatureView) (allRfvs : List RequestFeatureView) :
    ∀ (refs : List FeatureRef) (vf odf rqf : List (String × List String))
      (rrefs : List FeatureRef),
      (∀ r ∈ refs, refFeatureValid allFvs allOdfvs allRfvs r = true) →
      (∃ r ∈ refs, viewUnknown allFvs allOdfvs allRfvs r) →
      ∃ v, groupFeatureRefsAux allFvs allOdfvs allRfvs refs vf odf rqf rrefs
        = .error (.featureViewNotFound v) := by
  intro refs
  induction refs with
  | nil =>
    intro vf odf rqf rrefs _ hex
    obtain ⟨r, hr, _⟩ := hex
    cases hr
  | cons r rest ih =>
    intro vf odf rqf rrefs hfeat hex
    cases hfv : findFv allFvs r.view with
    | some v =>
      have hvalid := hfeat r (List.mem_cons_self _ _)
      simp only [refFeatureValid, hfv, decide_eq_true_eq] at hvalid
      have hex2 : ∃ r2 ∈ rest, viewUnknown allFvs allOdfvs allRfvs r2 := by
        obtain ⟨r2, hr2, hunk⟩ := hex
        rcases List.mem_cons.1 hr2 with rfl | hr2
        · rw [hunk.1] at hfv
          cases hfv
        · exact ⟨r2, hr2, hunk⟩
      obtain ⟨vv, hvv⟩ := ih (addFeature vf r.view r.feat) odf rqf rrefs
        (fun r2 hr2 => hfeat r2 (List.mem_cons_of_mem _ hr2)) hex2
      refine ⟨vv, ?_⟩
      simp only [groupFeatureRefsAux, hfv, if_pos hvalid]
      exact hvv
    | none =>
      cases hodfv : findOdfv allOdfvs r.view with
      | some o =>
        have hvalid := hfeat r (List.mem_cons_self _ _)
        simp only [refFeatureValid, hfv, hodfv, decide_eq_true_eq] at hvalid
        have hex2 : ∃ r2 ∈ rest, viewUnknown allFvs allOdfvs allRfvs r2 := by
          obtain ⟨r2, hr2, hunk⟩ := hex
          rcases List.mem_cons.1 hr2 with rfl | hr2
          · rw [hunk.2.1] at hodfv
            cases hodfv
          · exact ⟨r2, hr2, hunk⟩
        obtain ⟨vv, hvv⟩ := ih (addSourceFeatures vf o.sourceProjections)
          (addFeature odf r.view r.feat) rqf rrefs
          (fun r2 hr2 => hfeat r2 (List.mem_cons_of_mem _ hr2)) hex2
        refine ⟨vv, ?_⟩
        simp only [groupFeatureRefsAux, hfv, hodfv, if_pos hvalid]
        exact hvv
      | none =>
        cases hrfv : findRfv allRfvs r.view with
        | some q =>
          have hvalid := hfeat r (List.mem_cons_self _ _)
          simp only [refFeatureValid, hfv, hodfv, hrfv, decide_eq_true_eq] at hvalid
          have hex2 : ∃ r2 ∈ rest, viewUnknown allFvs allOdfvs allRfvs r2 := by
            obtain ⟨r2, hr2, hunk⟩ := hex
            rcases List.mem_cons.1 hr2 with rfl | hr2
            · rw [hunk.2.2] at hrfv
              cases hrfv
            · exact ⟨r2, hr2, hunk⟩
          obtain ⟨vv, hvv⟩ := ih vf odf (addFeature rqf r.view r.feat)
            (if r ∈ rrefs then rrefs else rrefs ++ [r])
            (fun r2 hr2 => hfeat r2 (List.mem_cons_of_mem _ hr2)) hex2
          refine ⟨vv, ?_⟩
          simp only [groupFeatureRefsAux, hfv, hodfv, hrfv, if_pos hvalid]
          exact hvv
        | none =>
          refine ⟨r.view, ?_⟩
          simp only [groupFeatureRefsAux, hfv, hodfv, hrfv]

theorem groupFeatureRefsAux_ok_mem (allFvs : List FeatureView)
    (allOdfvs : List OnDemandFeatureView) (allRfvs : List RequestFeatureView) :
    ∀ (refs : List FeatureRef) (vf odf rqf : List (String × List String))
      (rrefs : List FeatureRef)
      (out : List (String × List String) × List (String × List String) ×
        List (String × List String) × List FeatureRef),
      groupFeatureRefsAux allFvs allOdfvs allRfvs refs vf odf rqf rrefs
          = .ok out →
      ∀ r ∈ refs,
        (findFv allFvs r.view ≠ none → hasFeat out.1 r.view r.feat)
        ∧ (findFv allFvs r.view = none → findOdfv allOdfvs r.view ≠ none →
            hasFeat out.2.1 r.view r.feat)
        ∧ (findFv allFvs r.view = none → findOdfv allOdfvs r.view = none →
            findRfv allRfvs r.view ≠ none →
            hasFeat out.2.2.1 r.view r.feat) := by
  intro refs
  induction refs with
  | nil =>
    intro vf odf rqf rrefs out _ r hr
    cases hr
  | cons r0 rest ih =>
    intro vf odf rqf rrefs out hok r hr
    cases hfv : findFv allFvs r0.view with
    | some v =>
      simp only [groupFeatureRefsAux, hfv] at hok
      by_cases hf : r0.feat ∈ v.features
      · rw [if_pos hf] at hok
        rcases List.mem_cons.1 hr with rfl | hr2
        · refine ⟨fun _ => ?_, fun hnone _ => ?_, fun hnone _ _ => ?_⟩
          · exact (groupFeatureRefsAux_mono allFvs allOdfvs allRfvs
              rest _ _ _ _ _ hok).1 r.view r.feat
              (hasFeat_addFeature_self vf r.view r.feat)
          · rw [hnone] at hfv
            cases hfv
          · rw [hnone] at hfv
            cases hfv
        · exact ih _ _ _ _ _ hok r hr2
      · rw [if_neg hf] at hok
        cases hok
    | none =>
      cases hodfv : findOdfv allOdfvs r0.view with
      | some o =>
        simp only [groupFeatureRefsAux, hfv, hodfv] at hok
        by_cases hf : r0.feat ∈ o.features
        · rw [if_pos hf] at hok
          rcases List.mem_cons.1 hr with rfl | hr2
          · refine ⟨fun hne => absurd hfv hne, fun _ _ => ?_,
              fun _ hnone _ => ?_⟩
            · exact (groupFeatureRefsAux_mono allFvs allOdfvs allRfvs
                rest _ _ _ _ _ hok).2.1 r.view r.feat
                (hasFeat_addFeature_self odf r.view r.feat)
            · rw [hnone] at hodfv
              cases hodfv
          · exact ih _ _ _ _ _ hok r hr2
        · rw [if_neg hf] at hok
          cases hok
      | none =>
        cases hrfv : findRfv allRfvs r0.view with
        | some q =>
          simp only [groupFeatureRefsAux, hfv, hodfv, hrfv] at hok
          by_cases hf : r0.feat ∈ q.features
          · rw [if_pos hf] at hok
            rcases List.mem_cons.1 hr with rfl | hr2
            · refine ⟨fun hne => absurd hfv hne,
                fun _ hne => absurd hodfv hne, fun _ _ _ => ?_⟩
              exact (groupFeatureRefsAux_mono allFvs allOdfvs allRfvs
                rest _ _ _ _ _ hok).2.2 r.view r.feat
                (hasFeat_addFeature_self rqf r.view r.feat)
            · exact ih _ _ _ _ _ hok r hr2
          · rw [if_neg hf] at hok
            cases hok
        | none =>
          simp only [groupFeatureRefsAux, hfv, hodfv, hrfv] at hok
          cases hok

/-- Claim C8: each feature reference's view is resolved among standard
views first, then on-demand (computed) views, then deprecated request
views, in that priority order; a reference whose view name matches none
of the three kinds makes resolution fail with the table-not-found error
carrying that view name.  (`hfeat` says every reference to a known view
names an existing feature, so the unrelated `get_feature` validation
error cannot preempt the lookup error.) -/
theorem group_feature_refs_spec (featureRefs : List FeatureRef)
    (allFvs : List FeatureView) (allOdfvs : List OnDemandFeatureView)
    (allRfvs : List RequestFeatureView)
    (hfeat : ∀ r ∈ featureRefs,
      refFeatureValid allFvs allOdfvs allRfvs r = true) :
    ((∃ r ∈ featureRefs, viewUnknown allFvs allOdfvs allRfvs r)
        ↔ ∃ v, groupFeatureRefs featureRefs allFvs allOdfvs allRfvs
            = .error (.featureViewNotFound v))
      ∧ (∀ v, groupFeatureRefs featureRefs allFvs allOdfvs allRfvs
            = .error (.featureViewNotFound v) →
          ∃ r ∈ featureRefs, r.view = v
            ∧ viewUnknown allFvs allOdfvs allRfvs r)
      ∧ (∀ g, groupFeatureRefs featureRefs allFvs allOdfvs allRfvs = .ok g →
          ∀ r ∈ featureRefs,
            (∀ v, findFv allFvs r.view = some v →
              ∃ p ∈ g.fvs, p.1 = v ∧ r.feat ∈ p.2)
            ∧ (findFv allFvs r.view = none →
               ∀ o, findOdfv allOdfvs r.view = some o →
              ∃ p ∈ g.odfvs, p.1 = o ∧ r.feat ∈ p.2)
            ∧ (findFv allFvs r.view = none →
               findOdfv allOdfvs r.view = none →
               ∀ q, findRfv allRfvs r.view = some q →
              ∃ p ∈ g.rfvs, p.1 = q ∧ r.feat ∈ p.2)) := by
  have herr2 : ∀ v, groupFeatureRefs featureRefs allFvs allOdfvs allRfvs
      = .error (.featureViewNotFound v) →
      ∃ r ∈ featureRefs, r.view = v
        ∧ viewUnknown allFvs allOdfvs allRfvs r := by
    intro v hg
    cases haux : groupFeatureRefsAux allFvs allOdfvs allRfvs featureRefs
        [] [] [] [] with
    | error e =>
      rw [groupFeatureRefs, haux] at hg
      injection hg with h
      subst h
      exact groupFeatureRefsAux_error allFvs allOdfvs allRfvs
        featureRefs [] [] [] [] v haux
    | ok out =>
      obtain ⟨vf, odf, rqf, rrefs⟩ := out
      rw [groupFeatureRefs, haux] at hg
      cases hg
  refine ⟨⟨?_, ?_⟩, herr2, ?_⟩
  · intro hex
    obtain ⟨v, hv⟩ := groupFeatureRefsAux_error_exists allFvs allOdfvs allRfvs
      featureRefs [] [] [] [] hfeat hex
    refine ⟨v, ?_⟩
    rw [groupFeatureRefs, hv]
  · rintro ⟨v, hv⟩
    obtain ⟨r, hr, _, hunk⟩ := herr2 v hv
    exact ⟨r, hr, hunk⟩
  · intro g hg r hr
    cases haux : groupFeatureRefsAux allFvs allOdfvs allRfvs featureRefs
        [] [] [] [] with
    | error e =>
      rw [groupFeatureRefs, haux] at hg
      cases hg
    | ok out =>
      obtain ⟨vf, odf, rqf, rrefs⟩ := out
      rw [groupFeatureRefs, haux] at hg
      injection hg with h
      subst h
      have hmem := groupFeatureRefsAux_ok_mem allFvs allOdfvs allRfvs
        featureRefs [] [] [] [] (vf, odf, rqf, rrefs) haux r hr
      refine ⟨?_, ?_, ?_⟩
      · intro v hfv
        obtain ⟨feats, halook, hfin⟩ := hmem.1 (by rw [hfv]; simp)
        refine ⟨(v, feats), ?_, rfl, hfin⟩
        refine List.mem_filterMap.2 ⟨(r.view, feats), alookup_mem _ _ _ halook, ?_⟩
        simp [hfv]
      · intro hnone o hodfv
        obtain ⟨feats, halook, hfin⟩ := hmem.2.1 hnone (by rw [hodfv]; simp)
        refine ⟨(o, feats), ?_, rfl, hfin⟩
        refine List.mem_filterMap.2 ⟨(r.view, feats), alookup_mem _ _ _ halook, ?_⟩
        simp [hodfv]
      · intro hnone hnone2 q hrfv
        obtain ⟨feats, halook, hfin⟩ :=
          hmem.2.2 hnone hnone2 (by rw [hrfv]; simp)
        refine ⟨(q, feats), ?_, rfl, hfin⟩
        refine List.mem_filterMap.2 ⟨(r.view, feats), alookup_mem _ _ _ halook, ?_⟩
        simp [hrfv]

/-- Witness for C8 at a concrete input: the name `stats` is registered
both as a standard view and as an on-demand view; the reference
`stats:f` resolves to the standard view by priority and its feature is
grouped there. -/
theorem group_feature_refs_spec_witness :
    ∃ p ∈ (GroupedRefs.mk [(⟨"stats", ["e"], ["f"], []⟩, ["f"])] [] []
        []).fvs,
      p.1 = (⟨"stats", ["e"], ["f"], []⟩ : FeatureView) ∧ "f" ∈ p.2 :=
  ((group_feature_refs_spec [⟨"stats", "f"⟩]
      [⟨"stats", ["e"], ["f"], []⟩]
      [⟨"stats", ["h"], [("other", ["h"])], ["rd"]⟩] []
      (by decide)).2.2
    (GroupedRefs.mk [(⟨"stats", ["e"], ["f"], []⟩, ["f"])] [] [] [])
    rfl ⟨"stats", "f"⟩ (by decide)).1
    ⟨"stats", ["e"], ["f"], []⟩ (by decide)

/-! ### Response assembly stages -/

/-- `_populate_result_rows_from_columnar`: append one all-`PRESENT`
FeatureVector per data column; a single default timestamp
(`Timestamp()`, i.e. the epoch) is initialized once and shared by every
column. -/
def populateResultRowsFromColumnar {V : Type} (resp : Response V)
    (data : List (String × List V)) : Response V :=
  { featureNames := resp.featureNames ++ data.map (fun p => p.1),
    results := resp.results ++ data.map (fun p =>
      { values := p.2.map some,
        statuses := List.replicate p.2.length (some FieldStatus.present),
        eventTimestamps := List.replicate p.2.length (some 0) }) }

/-- `_populate_response_from_feature_data`: append the requested feature
names (qualified with `view__` when `full_feature_names`), unzip the
per-unique-key triples, transpose each component to per-feature vectors
and scatter each back to full row length with `apply_list_mapping`. -/
def populateResponseFromFeatureData {V : Type}
    (featureData : List (List Nat × List FieldStatus × List V))
    (indexes : List (List Nat)) (resp : Response V)
    (fullFeatureNames : Bool) (requestedFeatures : List String)
    (viewName : String) : Response V :=
  let requestedFeatureRefs := requestedFeatures.map (fun f =>
    if fullFeatureNames then viewName ++ "__" ++ f else f)
  let timestamps := featureData.map (fun t => t.1)
  let statuses := featureData.map (fun t => t.2.1)
  let values := featureData.map (fun t => t.2.2)
  let triples := (pyTranspose timestamps).zip
    ((pyTranspose statuses).zip (pyTranspose values))
  { featureNames := resp.featureNames ++ requestedFeatureRefs,
    results := resp.results ++ triples.map (fun t =>
      { values := apply_list_mapping t.2.2 indexes,
        statuses := apply_list_mapping t.2.1 indexes,
        eventTimestamps := apply_list_mapping t.1 indexes }) }

/-- `_augment_response_with_on_demand_transforms`.  The transform
execution `odfv.get_transformed_features_df(initial_response_df, ...)`
lives in `on_demand_feature_view.py`, which is not among the given
sources.  Modelled from the spec: each requested computed table's
transform is a pure function from the already-assembled intermediate row
set to output columns, executed once over the whole batch;
`transform name resp` yields the named view's output columns
(`transformed_features_df`), computed from the response as it stood
before the augmentation loop (`initial_response_df` is built once).
The requested subset of columns is appended, each as an all-`PRESENT`
vector stamped with a fresh default timestamp (`Timestamp()`, the
epoch). -/
def augmentStep {V : Type} (resp : Response V) (odfvRefs : List FeatureRef)
    (fullFeatureNames : Bool)
    (transform : String → Response V → List (String × List V))
    (acc : Response V) (viewName : String) : Response V :=
  let outNames := (odfvRefs.filter (fun r => r.view = viewName)).map
    (fun r => if fullFeatureNames then viewName ++ "__" ++ r.feat
      else r.feat)
  let selected := (transform viewName resp).filter
    (fun col => col.1 ∈ outNames)
  { featureNames := acc.featureNames ++ selected.map (fun col => col.1),
    results := acc.results ++ selected.map (fun col =>
      { values := col.2.map some,
        statuses := List.replicate col.2.length (some FieldStatus.present),
        eventTimestamps := List.replicate col.2.length (some 0) }) }

def augmentResponseWithOnDemandTransforms {V : Type} (resp : Response V)
    (featureRefs : List FeatureRef) (allOdfvs : List OnDemandFeatureView)
    (fullFeatureNames : Bool)
    (transform : String → Response V → List (String × List V)) :
    Response V :=
  let odfvNames := allOdfvs.map (fun o => o.name)
  let odfvRefs := featureRefs.filter (fun r => r.view ∈ odfvNames)
  let viewsInOrder := dedupFirst (odfvRefs.map (fun r => r.view))
  viewsInOrder.foldl (augmentStep resp odfvRefs fullFeatureNames transform)
    resp

/-- `_drop_unneeded_columns`: collect the indices of response columns
whose name was not requested and delete them, in descending index
order, from both parallel lists. -/
def dropUnneededColumns {V : Type} (resp : Response V)
    (requestedResultRowNames : List String) : Response V :=
  let unneededFeatureIndices := ((resp.featureNames.enum).filter
    (fun p => !(requestedResultRowNames.contains p.2))).map (fun p => p.1)
  unneededFeatureIndices.reverse.foldl (fun r idx =>
    { featureNames := r.featureNames.eraseIdx idx,
      results := r.results.eraseIdx idx }) resp

/-- `_validate_entity_values`: the set of column lengths must be a
singleton, whose element is the row count.  (An empty mapping, where
Python's `set.pop` would raise, is also an error here.) -/
def validateEntityValues {V : Type}
    (joinKeyValues : List (String × List V)) : Except FeastError Nat :=
  match dedupFirst (joinKeyValues.map (fun p => p.2.length)) with
  | [n] => .ok n
  | _ => .error (.invalidRequest "All entity rows must have the same columns.")

/-- `_get_table_entity_values`: restrict the join-key columns to the
ones this view needs, translating projection aliases back to canonical
join keys.  (The source indexes `entity_name_to_join_key_map[...]`
directly, assuming every table entity is mapped; an unmapped name keeps
itself here.) -/
def getTableEntityValues {V : Type} (table : FeatureView)
    (entityNameToJoinKey : List (String × String))
    (joinKeyValues : List (String × List V)) : List (String × List V) :=
  let tableJoinKeys := table.entities.map (fun e =>
    (alookup e entityNameToJoinKey).getD e)
  let aliasToJoinKeyMap := table.joinKeyMap.map (fun p => (p.2, p.1))
  joinKeyValues.foldl (fun acc p =>
    let k2 := (alookup p.1 aliasToJoinKeyMap).getD p.1
    if k2 ∈ tableJoinKeys then upsert acc k2 p.2 else acc) []

/-- One iteration of the per-table loop in `_get_online_features`:
deduplicate the table's entity rows (`_get_unique_entities`), read from
the online store and scatter-populate the response.  `onlineRead` is
`provider.online_read`, contracted to return one row per submitted
unique entity key, in submission order. -/
def processTable {V : Type} [DecidableEq V] (nullV : V)
    (le : List V → List V → Bool)
    (entityNameToJoinKey : List (String × String))
    (joinKeyValues : List (String × List V))
    (onlineRead : String → List (List (String × V)) →
      List (Option Nat × Option (List (String × V))))
    (fullFeatureNames : Bool) (acc : Response V)
    (tf : FeatureView × List String) : Response V :=
  let tableEntityValues :=
    getTableEntityValues tf.1 entityNameToJoinKey joinKeyValues
  let keys := tableEntityValues.map (fun p => p.1)
  let rowise := pyTranspose (tableEntityValues.map (fun p => p.2))
  let ue := getUniqueEntities le rowise
  let entityKeys := ue.map (fun gp => keys.zip gp.1)
  let indexes := ue.map (fun gp => gp.2)
  let featureData :=
    readFromOnlineStore nullV (onlineRead tf.1.name entityKeys) tf.2
  populateResponseFromFeatureData featureData indexes acc
    fullFeatureNames tf.2 tf.1.name

/-- The entity-rows split loop of `_get_online_features`: each caller
column is request data when a requested computed/request view needs it
(request-view features additionally join the requested result names),
otherwise it must resolve to a join key, either directly or through the
deprecated entity-name mapping, else `EntityNotFoundException`; every
resolved join key joins the requested result names.  Yields
`(join_key_values, request_data_features, requested_result_row_names)`. -/
def splitEntityColumns {V : Type} (neededRequestData : List String)
    (neededRequestFvFeatures : List String) (joinKeysSet : List String)
    (entityNameToJoinKey : List (String × String)) :
    List (String × List V) → List (String × List V) →
    List (String × List V) → List String →
    Except FeastError
      (List (String × List V) × List (String × List V) × List String)
  | [], jkv, rdf, names => .ok (jkv, rdf, names)
  | p :: rest, jkv, rdf, names =>
    if p.1 ∈ neededRequestData ∨ p.1 ∈ neededRequestFvFeatures then
      splitEntityColumns neededRequestData neededRequestFvFeatures
        joinKeysSet entityNameToJoinKey rest jkv (upsert rdf p.1 p.2)
        (if p.1 ∈ neededRequestFvFeatures then p.1 :: names else names)
    else if p.1 ∈ joinKeysSet then
      splitEntityColumns neededRequestData neededRequestFvFeatures
        joinKeysSet entityNameToJoinKey rest (upsert jkv p.1 p.2) rdf
        (p.1 :: names)
    else
      match alookup p.1 entityNameToJoinKey with
      | none => .error (.entityNotFound p.1)
      | some jk =>
        splitEntityColumns neededRequestData neededRequestFvFeatures
          joinKeysSet entityNameToJoinKey rest (upsert jkv jk p.2) rdf
          (jk :: names)

/-- `DUMMY_ENTITY_NAME`: the reserved sentinel entity of entityless
feature views. -/
def dummyEntityName : String := "__dummy"

/-- `DUMMY_ENTITY_ID`: the join key synthesized for entityless views. -/
def dummyEntityId : String := "__dummy_id"

/-- Response assembly of `_get_online_features` after validation: echo
columns (join-key values merged with request data), the entityless
dummy column, the per-table fetch loop, and the on-demand augmentation
(run only when some on-demand view was grouped). -/
def buildResponse {V : Type} [DecidableEq V] (nullV dummyVal : V)
    (le : List V → List V → Bool) (numRows : Nat)
    (fullFeatureNames : Bool) (featureRefs : List FeatureRef)
    (g : GroupedRefs) (allOdfvs : List OnDemandFeatureView)
    (entityNameToJoinKey : List (String × String))
    (joinKeyValues requestData : List (String × List V))
    (onlineRead : String → List (List (String × V)) →
      List (Option Nat × Option (List (String × V))))
    (transform : String → Response V → List (String × List V)) :
    Response V :=
  let resp1 := populateResultRowsFromColumnar ⟨[], []⟩
    (requestData.foldl (fun acc p => upsert acc p.1 p.2) joinKeyValues)
  let entitylessCase := (g.fvs.map (fun p => p.1)).any
    (fun fv => fv.entities.contains dummyEntityName)
  let joinKeyValues2 :=
    if entitylessCase then
      upsert joinKeyValues dummyEntityId (List.replicate numRows dummyVal)
    else joinKeyValues
  let resp2 := g.fvs.foldl
    (processTable nullV le entityNameToJoinKey joinKeyValues2 onlineRead
      fullFeatureNames) resp1
  if g.odfvs.isEmpty then resp2
  else augmentResponseWithOnDemandTransforms resp2 featureRefs allOdfvs
    fullFeatureNames transform

/-- `_get_online_features` (the Python retrieval path): the empty-list
check of `_get_features`, entity-batch validation, collision validation,
reference grouping, the entity-column split with its request-data
completeness check, response assembly and the final trim. -/
def getOnlineFeaturesModel {V : Type} [DecidableEq V]
    (featureRefs : List FeatureRef) (fullFeatureNames : Bool)
    (allFvs : List FeatureView) (allOdfvs : List OnDemandFeatureView)
    (allRfvs : List RequestFeatureView)
    (entityNameToJoinKey : List (String × String))
    (entityValues : List (String × List V)) (dummyVal nullV : V)
    (le : List V → List V → Bool)
    (onlineRead : String → List (List (String × V)) →
      List (Option Nat × Option (List (String × V))))
    (transform : String → Response V → List (String × List V)) :
    Except FeastError (Response V) :=
  if featureRefs.isEmpty then
    .error (.invalidRequest "No features specified for retrieval")
  else
    match validateEntityValues entityValues with
    | .error e => .error e
    | .ok numRows =>
      let collided := validateFeatureRefs featureRefs fullFeatureNames
      if collided.isEmpty then
        match groupFeatureRefs featureRefs allFvs allOdfvs allRfvs with
        | .error e => .error e
        | .ok g =>
          let baseNames := featureRefs.map (fun r =>
            if fullFeatureNames then r.view ++ "__" ++ r.feat else r.feat)
          let neededRequestData := dedupFirst
            ((g.odfvs.map (fun p => p.1.requestSchema)).flatten)
          let neededRequestFvFeatures := dedupFirst
            ((g.rfvs.map (fun p => p.1.features)).flatten)
          let joinKeysSet := entityNameToJoinKey.map (fun p => p.2)
          match splitEntityColumns neededRequestData neededRequestFvFeatures
              joinKeysSet entityNameToJoinKey entityValues [] [] baseNames with
          | .error e => .error e
          | .ok split =>
            if neededRequestData.length + neededRequestFvFeatures.length
                = split.2.1.length then
              .ok (dropUnneededColumns
                (buildResponse nullV dummyVal le numRows fullFeatureNames
                  featureRefs g allOdfvs entityNameToJoinKey split.1
                  split.2.1 onlineRead transform)
                split.2.2)
            else
              .error (.requestDataNotFound
                ((neededRequestData ++ neededRequestFvFeatures).filter
                  (fun x => !(alookup x split.2.1).isSome)))
      else
        .error (.featureNameCollision collided fullFeatureNames)

/-- The total order Python uses to sort composite key tuples
(`tuple(getattr(x, x.WhichOneof("val")) for x in row[1])` under tuple
comparison), instantiated at natural-number values. -/
def natLexLe : List Nat → List Nat → Bool
  | [], _ => true
  | _ :: _, [] => false
  | a :: as, b :: bs =>
    if a < b then true else if b < a then false else natLexLe as bs

/-! ### Echo columns and on-demand augmentation -/

theorem populateResultRowsFromColumnar_results {V : Type} (resp : Response V)
    (data : List (String × List V)) :
    ∀ fv ∈ (populateResultRowsFromColumnar resp data).results,
      fv ∈ resp.results ∨ ∃ col ∈ data,
        fv = ⟨col.2.map some,
          List.replicate col.2.length (some FieldStatus.present),
          List.replicate col.2.length (some 0)⟩ := by
  intro fv hfv
  rw [populateResultRowsFromColumnar] at hfv
  rcases List.mem_append.1 hfv with hl | hr
  · exact Or.inl hl
  · obtain ⟨col, hcol, heq⟩ := List.mem_map.1 hr
    exact Or.inr ⟨col, hcol, heq.symm⟩

theorem augmentStep_results {V : Type} (resp : Response V)
    (odfvRefs : List FeatureRef) (fullFeatureNames : Bool)
    (transform : String → Response V → List (String × List V))
    (acc : Response V) (viewName : String) :
    ∀ fv ∈ (augmentStep resp odfvRefs fullFeatureNames transform acc
        viewName).results,
      fv ∈ acc.results ∨ ∃ col ∈ transform viewName resp,
        fv = ⟨col.2.map some,
          List.replicate col.2.length (some FieldStatus.present),
          List.replicate col.2.length (some 0)⟩ := by
  intro fv hfv
  rw [augmentStep] at hfv
  rcases List.mem_append.1 hfv with hl | hr
  · exact Or.inl hl
  · obtain ⟨col, hcol, heq⟩ := List.mem_map.1 hr
    exact Or.inr ⟨col, (List.mem_filter.1 hcol).1, heq.symm⟩

theorem augment_results_mem {V : Type} (resp : Response V)
    (featureRefs : List FeatureRef) (allOdfvs : List OnDemandFeatureView)
    (fullFeatureNames : Bool)
    (transform : String → Response V → List (String × List V)) :
    ∀ fv ∈ (augmentResponseWithOnDemandTransforms resp featureRefs allOdfvs
        fullFeatureNames transform).results,
      fv ∈ resp.results ∨ ∃ name, ∃ col ∈ transform name resp,
        fv = ⟨col.2.map some,
          List.replicate col.2.length (some FieldStatus.present),
          List.replicate col.2.length (some 0)⟩ := by
  have haux : ∀ (odfvRefs : List FeatureRef) (vs : List String)
      (acc : Response V),
      (∀ fv ∈ acc.results, fv ∈ resp.results ∨ ∃ name,
        ∃ col ∈ transform name resp,
        fv = ⟨col.2.map some,
          List.replicate col.2.length (some FieldStatus.present),
          List.replicate col.2.length (some 0)⟩) →
      ∀ fv ∈ (vs.foldl (augmentStep resp odfvRefs fullFeatureNames
          transform) acc).results,
        fv ∈ resp.results ∨ ∃ name, ∃ col ∈ transform name resp,
          fv = ⟨col.2.map some,
            List.replicate col.2.length (some FieldStatus.present),
            List.replicate col.2.length (some 0)⟩ := by
    intro odfvRefs vs
    induction vs with
    | nil => intro acc hacc fv hfv; exact hacc fv hfv
    | cons v vt ih =>
      intro acc hacc fv hfv
      rw [List.foldl_cons] at hfv
      refine ih _ ?_ fv hfv
      intro fv2 hfv2
      rcases augmentStep_results resp odfvRefs fullFeatureNames transform
          acc v fv2 hfv2 with hl | ⟨col, hcol, heq⟩
      · exact hacc fv2 hl
      · exact Or.inr ⟨v, col, hcol, heq⟩
  intro fv hfv
  simp only [augmentResponseWithOnDemandTransforms] at hfv
  exact haux _ _ resp (fun fv2 h => Or.inl h) fv hfv

/-- Claim C10: every row of every computed (on-demand) feature appended
by the augmenter has `PRESENT` status unconditionally — the transform
is applied once over the whole batch, whatever its inputs were (even
rows whose source features were `NOT_FOUND`), and a `NOT_FOUND` status
is never emitted for a computed feature. -/
theorem odfv_statuses_present {V : Type} (resp : Response V)
    (featureRefs : List FeatureRef) (allOdfvs : List OnDemandFeatureView)
    (fullFeatureNames : Bool)
    (transform : String → Response V → List (String × List V)) :
    ∀ fv ∈ (augmentResponseWithOnDemandTransforms resp featureRefs allOdfvs
        fullFeatureNames transform).results,
      fv ∈ resp.results ∨
        (fv.statuses = List.replicate fv.values.length
            (some FieldStatus.present)
          ∧ some FieldStatus.notFound ∉ fv.statuses) := by
  intro fv hfv
  rcases augment_results_mem resp featureRefs allOdfvs fullFeatureNames
      transform fv hfv with hl | ⟨name, col, hcol, heq⟩
  · exact Or.inl hl
  · refine Or.inr ?_
    subst heq
    constructor
    · simp
    · intro hmem
      have := List.eq_of_mem_replicate hmem
      cases this

/-- Witness for C10 at a concrete input: a computed view `pct` appended
onto a one-column response; its vector is all-`PRESENT`. -/
theorem odfv_statuses_present_witness :
    (⟨[some 3], [some FieldStatus.present], [some 0]⟩ : FeatureVector Nat)
        ∈ (Response.mk ["a"]
          [⟨[some 1], [some FieldStatus.present], [some 0]⟩] :
          Response Nat).results
      ∨ ((⟨[some 3], [some FieldStatus.present], [some 0]⟩ :
          FeatureVector Nat).statuses
            = List.replicate ([some 3] : List (Option Nat)).length
              (some FieldStatus.present)
          ∧ some FieldStatus.notFound
            ∉ (⟨[some 3], [some FieldStatus.present], [some 0]⟩ :
              FeatureVector Nat).statuses) :=
  odfv_statuses_present
    (Response.mk ["a"] [⟨[some 1], [some FieldStatus.present], [some 0]⟩])
    [⟨"pct", "pct"⟩] [⟨"pct", ["pct"], [("driver_stats", ["conv_rate"])], []⟩]
    false (fun _ _ => [("pct", [3])])
    ⟨[some 3], [some FieldStatus.present], [some 0]⟩ (by decide)

/-- Claim C7 (amended): echo columns (join-key values and caller-supplied
request data) are emitted as all-`PRESENT` FeatureVectors whose rows all
carry the one timestamp initialized for the whole columnar pass, and the
augmenter's computed vectors are all-`PRESENT` with a freshly
initialized timestamp per view.  Both timestamps are default-constructed
(`Timestamp()`, the epoch zero marker), not a wall-clock "now", so they
are not necessarily distinct from fetched rows' write timestamps. -/
theorem echo_and_odfv_vectors_spec {V : Type} (resp : Response V)
    (data : List (String × List V)) (featureRefs : List FeatureRef)
    (allOdfvs : List OnDemandFeatureView) (fullFeatureNames : Bool)
    (transform : String → Response V → List (String × List V)) :
    (∀ fv ∈ (populateResultRowsFromColumnar resp data).results,
        fv ∈ resp.results ∨ ∃ col ∈ data,
          fv = ⟨col.2.map some,
            List.replicate col.2.length (some FieldStatus.present),
            List.replicate col.2.length (some 0)⟩)
      ∧ (∀ fv ∈ (augmentResponseWithOnDemandTransforms resp featureRefs
            allOdfvs fullFeatureNames transform).results,
          fv ∈ resp.results ∨ ∃ name, ∃ col ∈ transform name resp,
            fv = ⟨col.2.map some,
              List.replicate col.2.length (some FieldStatus.present),
              List.replicate col.2.length (some 0)⟩) :=
  ⟨populateResultRowsFromColumnar_results resp data,
   augment_results_mem resp featureRefs allOdfvs fullFeatureNames transform⟩

/-- Witness for the amended C7 at a concrete input: a single echo column
`driver_id` appended to an empty response. -/
theorem echo_and_odfv_vectors_spec_witness :
    (⟨[some 4], [some FieldStatus.present], [some 0]⟩ : FeatureVector Nat)
        ∈ (Response.mk [] [] : Response Nat).results
      ∨ ∃ col ∈ [("driver_id", [4])],
          (⟨[some 4], [some FieldStatus.present], [some 0]⟩ :
              FeatureVector Nat)
            = ⟨col.2.map some,
              List.replicate col.2.length (some FieldStatus.present),
              List.replicate col.2.length (some 0)⟩ :=
  (echo_and_odfv_vectors_spec (Response.mk [] []) [("driver_id", [4])]
      [] [] false (fun _ _ => [])).1
    ⟨[some 4], [some FieldStatus.present], [some 0]⟩ (by decide)

/-- A concrete provider: key `driver_id=1` is stored with `conv_rate=7`
and no write timestamp, key `driver_id=2` is absent. -/
def demoRead (_t : String) (keys : List (List (String × Nat))) :
    List (Option Nat × Option (List (String × Nat))) :=
  keys.map (fun k =>
    if k = [("driver_id", 1)] then (none, some [("conv_rate", 7)])
    else (none, none))

/-- A concrete transform for the computed view `pct`. -/
def demoTransform (_name : String) (_resp : Response Nat) :
    List (String × List Nat) :=
  [("pct", [700, 700, 0])]

/-- A concrete end-to-end run: standard view `driver_stats`, computed
view `pct` sourced from it, three entity rows `[1, 1, 2]`. -/
def demoResult : Except FeastError (Response Nat) :=
  getOnlineFeaturesModel (V := Nat)
    [⟨"driver_stats", "conv_rate"⟩, ⟨"pct", "pct"⟩] false
    [⟨"driver_stats", ["driver"], ["conv_rate"], []⟩]
    [⟨"pct", ["pct"], [("driver_stats", ["conv_rate"])], []⟩] []
    [("driver", "driver_id")]
    [("driver_id", [1, 1, 2])] 0 0 natLexLe demoRead demoTransform

/-- The response computed by `demoResult`. -/
def demoResponse : Response Nat :=
  ⟨["driver_id", "conv_rate", "pct"],
   [⟨[some 1, some 1, some 2],
     [some FieldStatus.present, some FieldStatus.present,
      some FieldStatus.present],
     [some 0, some 0, some 0]⟩,
    ⟨[some 7, some 7, some 0],
     [some FieldStatus.present, some FieldStatus.present,
      some FieldStatus.notFound],
     [some 0, some 0, some 0]⟩,
    ⟨[some 700, some 700, some 0],
     [some FieldStatus.present, some FieldStatus.present,
      some FieldStatus.present],
     [some 0, some 0, some 0]⟩]⟩

/-- Counterexample to C7 as stated: in the `demoResult` run the
computed view `pct`'s event timestamps (default-constructed, epoch)
coincide with the fetched `conv_rate` rows' timestamps (the backend
reported no write time, which also normalizes to the epoch), so the
augmenter's marker is neither a wall-clock "now" nor distinct from the
fetched rows' timestamps. -/
theorem odfv_timestamp_counterexample :
    demoResult = .ok demoResponse
      ∧ demoResponse.featureNames[1]? = some "conv_rate"
      ∧ demoResponse.featureNames[2]? = some "pct"
      ∧ (demoResponse.results[2]?).map (fun fv => fv.eventTimestamps)
          = (demoResponse.results[1]?).map (fun fv => fv.eventTimestamps) :=
  ⟨rfl, rfl, rfl, rfl⟩

/-! ### Request validation (`_get_features` / `_validate_entity_values`) -/

theorem validateEntityValues_ok {V : Type}
    (entityValues : List (String × List V)) (n : Nat)
    (h : validateEntityValues entityValues = .ok n) :
    ∀ p ∈ entityValues, p.2.length = n := by
  intro p hp
  cases hd : dedupFirst (entityValues.map (fun p => p.2.length)) with
  | nil =>
    simp only [validateEntityValues, hd] at h
    cases h
  | cons a t =>
    cases t with
    | nil =>
      simp only [validateEntityValues, hd] at h
      injection h with h2
      subst h2
      have hmem : p.2.length ∈ dedupFirst
          (entityValues.map (fun p => p.2.length)) :=
        (mem_dedupFirst _ _).2 (List.mem_map_of_mem _ hp)
      rw [hd] at hmem
      simpa using hmem
    | cons b t2 =>
      simp only [validateEntityValues, hd] at h
      cases h

theorem validateEntityValues_error {V : Type}
    (entityValues : List (String × List V)) (e : FeastError)
    (h : validateEntityValues entityValues = .error e) :
    e = .invalidRequest "All entity rows must have the same columns." := by
  cases hd : dedupFirst (entityValues.map (fun p => p.2.length)) with
  | nil =>
    simp only [validateEntityValues, hd] at h
    injection h with h2
    exact h2.symm
  | cons a t =>
    cases t with
    | nil =>
      simp only [validateEntityValues, hd] at h
      cases h
    | cons b t2 =>
      simp only [validateEntityValues, hd] at h
      injection h with h2
      exact h2.symm

/-- Claim C9: a request with an empty feature list, or whose entity
columns do not all have the same length, fails with `InvalidRequest`
synchronously: the same error results whatever the backend would answer
(no backend read can influence it), and no response is returned. -/
theorem invalid_request_spec {V : Type} [DecidableEq V]
    (featureRefs : List FeatureRef) (fullFeatureNames : Bool)
    (allFvs : List FeatureView) (allOdfvs : List OnDemandFeatureView)
    (allRfvs : List RequestFeatureView)
    (entityNameToJoinKey : List (String × String))
    (entityValues : List (String × List V)) (dummyVal nullV : V)
    (le : List V → List V → Bool)
    (h : featureRefs = []
      ∨ ∃ p ∈ entityValues, ∃ q ∈ entityValues,
          p.2.length ≠ q.2.length) :
    ∃ msg, ∀ (onlineRead : String → List (List (String × V)) →
        List (Option Nat × Option (List (String × V))))
      (transform : String → Response V → List (String × List V)),
      getOnlineFeaturesModel featureRefs fullFeatureNames allFvs allOdfvs
          allRfvs entityNameToJoinKey entityValues dummyVal nullV le
          onlineRead transform
        = .error (.invalidRequest msg) := by
  by_cases he : featureRefs.isEmpty
  · refine ⟨"No features specified for retrieval",
      fun onlineRead transform => ?_⟩
    rw [getOnlineFeaturesModel, if_pos he]
  · rcases h with rfl | ⟨p, hp, q, hq, hne⟩
    · simp at he
    · cases hv : validateEntityValues entityValues with
      | ok n =>
        have h1 := validateEntityValues_ok entityValues n hv p hp
        have h2 := validateEntityValues_ok entityValues n hv q hq
        exact absurd (h1.trans h2.symm) hne
      | error e =>
        have heq := validateEntityValues_error entityValues e hv
        subst heq
        refine ⟨"All entity rows must have the same columns.",
          fun onlineRead transform => ?_⟩
        rw [getOnlineFeaturesModel, if_neg he]
        rw [hv]

/-- Witness for C9 at a concrete input: two entity columns of lengths 1
and 2 fail with `InvalidRequest` no matter the backend. -/
theorem invalid_request_spec_witness :
    ∃ msg, getOnlineFeaturesModel (V := Nat)
        [⟨"driver_stats", "conv_rate"⟩] false
        [⟨"driver_stats", ["driver"], ["conv_rate"], []⟩] [] []
        [("driver", "driver_id")]
        [("driver_id", [1]), ("other_id", [2, 3])] 0 0 natLexLe
        demoRead demoTransform
      = .error (.invalidRequest msg) := by
  obtain ⟨msg, hmsg⟩ := invalid_request_spec (V := Nat)
    [⟨"driver_stats", "conv_rate"⟩] false
    [⟨"driver_stats", ["driver"], ["conv_rate"], []⟩] [] []
    [("driver", "driver_id")]
    [("driver_id", [1]), ("other_id", [2, 3])] 0 0 natLexLe
    (Or.inr ⟨("driver_id", [1]), by decide, ("other_id", [2, 3]),
      by decide, by decide⟩)
  exact ⟨msg, hmsg demoRead demoTransform⟩

/-! ### Row-count invariants (towards C3) -/

theorem pyTransposeAux_length {α : Type} :
    ∀ (n : Nat) (rows : List (List α)), rows ≠ [] →
      (∀ r ∈ rows, r.length = n) →
      (pyTransposeAux n rows).length = n := by
  intro n
  induction n with
  | zero => intro rows _ _; rfl
  | succ m ih =>
    intro rows hne hlen
    have hempty : (rows.isEmpty || rows.any List.isEmpty) = false := by
      rw [Bool.or_eq_false_iff]
      constructor
      · cases rows with
        | nil => exact absurd rfl hne
        | cons r rest => rfl
      · rw [List.any_eq_false]
        intro r hr
        have hrl := hlen r hr
        cases r with
        | nil => simp at hrl
        | cons x xs => simp
    have hstep : pyTransposeAux (m + 1) rows
        = (rows.filterMap List.head?) ::
          pyTransposeAux m (rows.map List.tail) := by
      rw [pyTransposeAux, hempty]
      rfl
    rw [hstep]
    have htails : (pyTransposeAux m (rows.map List.tail)).length = m := by
      refine ih (rows.map List.tail) ?_ ?_
      · cases rows with
        | nil => exact absurd rfl hne
        | cons r rest => simp
      · intro t ht
        obtain ⟨r, hr, heq⟩ := List.mem_map.1 ht
        have hrl := hlen r hr
        rw [← heq, List.length_tail, hrl]
        omega
    rw [List.length_cons, htails]

theorem pyTranspose_length {α : Type} (rows : List (List α)) (n : Nat)
    (hne : rows ≠ []) (hlen : ∀ r ∈ rows, r.length = n) :
    (pyTranspose rows).length = n := by
  cases rows with
  | nil => exact absurd rfl hne
  | cons r rest =>
    have hdef : pyTranspose (r :: rest) = pyTransposeAux r.length (r :: rest) :=
      rfl
    have hrl : r.length = n := hlen r (List.mem_cons_self _ _)
    rw [hdef, hrl]
    exact pyTransposeAux_length n (r :: rest) hne hlen

theorem getUniqueEntities_sum_lengths {K : Type} [DecidableEq K]
    (le : K → K → Bool) (rows : List K) :
    ((getUniqueEntities le rows).map (fun g => g.2.length)).sum
      = rows.length := by
  unfold getUniqueEntities
  rw [groupRuns_sum_lengths]
  have hlen := (List.perm_insertionSort
    (fun a b : Nat × K => le a.2 b.2 = true) rows.enum).length_eq
  rw [hlen, List.enum_length]

theorem mem_upsert_values {α β : Type} [DecidableEq α] (P : β → Prop)
    (l : List (α × β)) (k : α) (v : β)
    (hl : ∀ p ∈ l, P p.2) (hv : P v) : ∀ p ∈ upsert l k v, P p.2 := by
  intro p hp
  rw [upsert] at hp
  by_cases hs : (alookup k l).isSome
  · rw [if_pos hs] at hp
    obtain ⟨q, hq, heq⟩ := List.mem_map.1 hp
    by_cases hqk : q.1 = k
    · rw [if_pos hqk] at heq
      rw [← heq]
      exact hv
    · rw [if_neg hqk] at heq
      rw [← heq]
      exact hl q hq
  · rw [if_neg hs] at hp
    rcases List.mem_append.1 hp with h | h
    · exact hl p h
    · have hpv : p = (k, v) := by simpa using h
      rw [hpv]
      exact hv

theorem foldl_upsert_values {α β : Type} [DecidableEq α] (P : β → Prop) :
    ∀ (l acc : List (α × β)), (∀ p ∈ acc, P p.2) → (∀ p ∈ l, P p.2) →
      ∀ p ∈ l.foldl (fun acc p => upsert acc p.1 p.2) acc, P p.2 := by
  intro l
  induction l with
  | nil => intro acc hacc _ p hp; exact hacc p hp
  | cons q t ih =>
    intro acc hacc hl p hp
    rw [List.foldl_cons] at hp
    refine ih _ ?_ (fun x hx => hl x (List.mem_cons_of_mem _ hx)) p hp
    exact mem_upsert_values P acc q.1 q.2 hacc
      (hl q (List.mem_cons_self _ _))

theorem getTableEntityValues_values {V : Type} (P : List V → Prop)
    (table : FeatureView) (entityNameToJoinKey : List (String × String))
    (joinKeyValues : List (String × List V))
    (hjkv : ∀ p ∈ joinKeyValues, P p.2) :
    ∀ p ∈ getTableEntityValues table entityNameToJoinKey joinKeyValues,
      P p.2 := by
  have haux : ∀ (tjk : List String) (amap : List (String × String))
      (l acc : List (String × List V)),
      (∀ p ∈ acc, P p.2) → (∀ p ∈ l, P p.2) →
      ∀ p ∈ l.foldl (fun acc p =>
          let k2 := (alookup p.1 amap).getD p.1
          if k2 ∈ tjk then upsert acc k2 p.2 else acc) acc, P p.2 := by
    intro tjk amap l
    induction l with
    | nil => intro acc hacc _ p hp; exact hacc p hp
    | cons q t ih =>
      intro acc hacc hl p hp
      rw [List.foldl_cons] at hp
      refine ih _ ?_ (fun x hx => hl x (List.mem_cons_of_mem _ hx)) p hp
      by_cases hk : ((alookup q.1 amap).getD q.1) ∈ tjk
      · intro x hx
        simp only [if_pos hk] at hx
        exact mem_upsert_values P acc _ q.2 hacc
          (hl q (List.mem_cons_self _ _)) x hx
      · intro x hx
        simp only [if_neg hk] at hx
        exact hacc x hx
  intro p hp
  simp only [getTableEntityValues] at hp
  exact haux _ _ joinKeyValues [] (by intro x hx; cases hx) hjkv p hp

theorem populateResponseFromFeatureData_results {V : Type}
    (featureData : List (List Nat × List FieldStatus × List V))
    (indexes : List (List Nat)) (resp : Response V)
    (fullFeatureNames : Bool) (requestedFeatures : List String)
    (viewName : String) :
    ∀ fv ∈ (populateResponseFromFeatureData featureData indexes resp
        fullFeatureNames requestedFeatures viewName).results,
      fv ∈ resp.results
        ∨ (fv.values.length = (indexes.map List.length).sum
          ∧ fv.statuses.length = (indexes.map List.length).sum
          ∧ fv.eventTimestamps.length = (indexes.map List.length).sum
          ∧ featureData ≠ []) := by
  intro fv hfv
  simp only [populateResponseFromFeatureData] at hfv
  rcases List.mem_append.1 hfv with hl | hr
  · exact Or.inl hl
  · obtain ⟨t, ht, heq⟩ := List.mem_map.1 hr
    refine Or.inr ⟨?_, ?_, ?_, ?_⟩
    · rw [← heq]
      exact length_apply_list_mapping _ _
    · rw [← heq]
      exact length_apply_list_mapping _ _
    · rw [← heq]
      exact length_apply_list_mapping _ _
    · intro hnil
      subst hnil
      simp [pyTranspose, pyTransposeAux] at ht

theorem processTable_results {V : Type} [DecidableEq V] (nullV : V)
    (le : List V → List V → Bool)
    (entityNameToJoinKey : List (String × String))
    (joinKeyValues : List (String × List V))
    (onlineRead : String → List (List (String × V)) →
      List (Option Nat × Option (List (String × V))))
    (fullFeatureNames : Bool) (numRows : Nat)
    (hjkv : ∀ p ∈ joinKeyValues, p.2.length = numRows)
    (hread : ∀ t keys, (onlineRead t keys).length = keys.length)
    (acc : Response V) (tf : FeatureView × List String) :
    ∀ fv ∈ (processTable nullV le entityNameToJoinKey joinKeyValues
        onlineRead fullFeatureNames acc tf).results,
      fv ∈ acc.results ∨ (fv.values.length = numRows
        ∧ fv.statuses.length = numRows
        ∧ fv.eventTimestamps.length = numRows) := by
  intro fv hfv
  simp only [processTable] at hfv
  rcases populateResponseFromFeatureData_results _ _ _ _ _ _ fv hfv
    with hl | ⟨h1, h2, h3, hne⟩
  · exact Or.inl hl
  cases htev : getTableEntityValues tf.1 entityNameToJoinKey joinKeyValues with
  | nil =>
    exfalso
    rw [htev] at hne
    have hkeys : (getUniqueEntities le
        (pyTranspose (([] : List (String × List V)).map
          (fun p => p.2)))).map
          (fun gp => (([] : List (String × List V)).map
            (fun p => p.1)).zip gp.1) = [] := rfl
    rw [hkeys] at hne
    have hlen0 := hread tf.1.name []
    have : onlineRead tf.1.name [] = [] := List.length_eq_zero.1 hlen0
    rw [readFromOnlineStore, this] at hne
    exact hne rfl
  | cons c rest =>
    refine Or.inr ?_
    have hsum : ((getUniqueEntities le (pyTranspose
        ((getTableEntityValues tf.1 entityNameToJoinKey
          joinKeyValues).map (fun p => p.2)))).map
        (fun gp => gp.2) |>.map List.length).sum = numRows := by
      rw [List.map_map]
      have := getUniqueEntities_sum_lengths le (pyTranspose
        ((getTableEntityValues tf.1 entityNameToJoinKey
          joinKeyValues).map (fun p => p.2)))
      have hrowlen : (pyTranspose ((getTableEntityValues tf.1
          entityNameToJoinKey joinKeyValues).map
          (fun p => p.2))).length = numRows := by
        refine pyTranspose_length _ numRows ?_ ?_
        · rw [htev]
          simp
        · intro r hr
          obtain ⟨p, hp, heq⟩ := List.mem_map.1 hr
          rw [← heq]
          exact getTableEntityValues_values
            (fun v => v.length = numRows) tf.1 entityNameToJoinKey
            joinKeyValues hjkv p hp
      rw [hrowlen] at this
      have hcomp : ((getUniqueEntities le (pyTranspose
          ((getTableEntityValues tf.1 entityNameToJoinKey
            joinKeyValues).map (fun p => p.2)))).map
          (List.length ∘ (fun gp => gp.2))).sum
          = ((getUniqueEntities le (pyTranspose
          ((getTableEntityValues tf.1 entityNameToJoinKey
            joinKeyValues).map (fun p => p.2)))).map
          (fun gp => gp.2.length)).sum := rfl
      rw [hcomp, this]
    rw [hsum] at h1 h2 h3
    exact ⟨h1, h2, h3⟩

theorem splitEntityColumns_values {V : Type} (P : List V → Prop)
    (neededRequestData neededRequestFvFeatures joinKeysSet : List String)
    (entityNameToJoinKey : List (String × String)) :
    ∀ (cols jkv rdf : List (String × List V)) (names : List String)
      (out : List (String × List V) × List (String × List V) × List String),
      splitEntityColumns neededRequestData neededRequestFvFeatures
          joinKeysSet entityNameToJoinKey cols jkv rdf names = .ok out →
      (∀ p ∈ cols, P p.2) → (∀ p ∈ jkv, P p.2) → (∀ p ∈ rdf, P p.2) →
      (∀ p ∈ out.1, P p.2) ∧ (∀ p ∈ out.2.1, P p.2) := by
  intro cols
  induction cols with
  | nil =>
    intro jkv rdf names out hok _ hjkv hrdf
    simp only [splitEntityColumns] at hok
    injection hok with h
    subst h
    exact ⟨hjkv, hrdf⟩
  | cons c rest ih =>
    intro jkv rdf names out hok hcols hjkv hrdf
    have hc := hcols c (List.mem_cons_self _ _)
    have hrest := fun x hx => hcols x (List.mem_cons_of_mem _ hx)
    by_cases hrd : c.1 ∈ neededRequestData ∨ c.1 ∈ neededRequestFvFeatures
    · simp only [splitEntityColumns, if_pos hrd] at hok
      exact ih _ _ _ _ hok hrest hjkv
        (mem_upsert_values P rdf c.1 c.2 hrdf hc)
    · by_cases hjk : c.1 ∈ joinKeysSet
      · simp only [splitEntityColumns, if_neg hrd, if_pos hjk] at hok
        exact ih _ _ _ _ hok hrest
          (mem_upsert_values P jkv c.1 c.2 hjkv hc) hrdf
      · cases hlk : alookup c.1 entityNameToJoinKey with
        | none =>
          simp only [splitEntityColumns, if_neg hrd, if_neg hjk, hlk] at hok
          cases hok
        | some jk =>
          simp only [splitEntityColumns, if_neg hrd, if_neg hjk, hlk] at hok
          exact ih _ _ _ _ hok hrest
            (mem_upsert_values P jkv jk c.2 hjkv hc) hrdf

theorem buildResponse_results_length {V : Type} [DecidableEq V]
    (nullV dummyVal : V) (le : List V → List V → Bool) (numRows : Nat)
    (fullFeatureNames : Bool) (featureRefs : List FeatureRef)
    (g : GroupedRefs) (allOdfvs : List OnDemandFeatureView)
    (entityNameToJoinKey : List (String × String))
    (joinKeyValues requestData : List (String × List V))
    (onlineRead : String → List (List (String × V)) →
      List (Option Nat × Option (List (String × V))))
    (transform : String → Response V → List (String × List V))
    (hjkv : ∀ p ∈ joinKeyValues, p.2.length = numRows)
    (hrdf : ∀ p ∈ requestData, p.2.length = numRows)
    (hread : ∀ t keys, (onlineRead t keys).length = keys.length)
    (htrans : ∀ name r, ∀ col ∈ transform name r,
      col.2.length = numRows) :
    ∀ fv ∈ (buildResponse nullV dummyVal le numRows fullFeatureNames
        featureRefs g allOdfvs entityNameToJoinKey joinKeyValues
        requestData onlineRead transform).results,
      fv.values.length = numRows ∧ fv.statuses.length = numRows
        ∧ fv.eventTimestamps.length = numRows := by
  have hmerged : ∀ p ∈ requestData.foldl
      (fun acc p => upsert acc p.1 p.2) joinKeyValues, p.2.length = numRows :=
    foldl_upsert_values (fun v => v.length = numRows) requestData
      joinKeyValues hjkv hrdf
  have hresp1 : ∀ fv ∈ (populateResultRowsFromColumnar
      (⟨[], []⟩ : Response V)
      (requestData.foldl (fun acc p => upsert acc p.1 p.2)
        joinKeyValues)).results,
      fv.values.length = numRows ∧ fv.statuses.length = numRows
        ∧ fv.eventTimestamps.length = numRows := by
    intro fv hfv
    rcases populateResultRowsFromColumnar_results _ _ fv hfv
      with hl | ⟨col, hcol, heq⟩
    · cases hl
    · have hclen := hmerged col hcol
      subst heq
      simp [hclen]
  have hjkv2 : ∀ p ∈ (if (g.fvs.map (fun p => p.1)).any
      (fun fv => fv.entities.contains dummyEntityName) then
        upsert joinKeyValues dummyEntityId
          (List.replicate numRows dummyVal)
      else joinKeyValues), p.2.length = numRows := by
    by_cases hdum : (g.fvs.map (fun p => p.1)).any
        (fun fv => fv.entities.contains dummyEntityName)
    · rw [if_pos hdum]
      exact mem_upsert_values (fun v : List V => v.length = numRows)
        joinKeyValues dummyEntityId (List.replicate numRows dummyVal) hjkv
        (List.length_replicate _ _)
    · rw [if_neg hdum]
      exact hjkv
  have hresp2 : ∀ (tables : List (FeatureView × List String))
      (acc : Response V),
      (∀ fv ∈ acc.results, fv.values.length = numRows
        ∧ fv.statuses.length = numRows
        ∧ fv.eventTimestamps.length = numRows) →
      ∀ fv ∈ (tables.foldl (processTable nullV le entityNameToJoinKey
          (if (g.fvs.map (fun p => p.1)).any
            (fun fv => fv.entities.contains dummyEntityName) then
            upsert joinKeyValues dummyEntityId
              (List.replicate numRows dummyVal)
          else joinKeyValues) onlineRead fullFeatureNames) acc).results,
        fv.values.length = numRows ∧ fv.statuses.length = numRows
          ∧ fv.eventTimestamps.length = numRows := by
    intro tables
    induction tables with
    | nil => intro acc hacc fv hfv; exact hacc fv hfv
    | cons tf rest ih =>
      intro acc hacc fv hfv
      rw [List.foldl_cons] at hfv
      refine ih _ ?_ fv hfv
      intro fv2 hfv2
      rcases processTable_results nullV le entityNameToJoinKey _
          onlineRead fullFeatureNames numRows hjkv2 hread acc tf fv2 hfv2
        with hl | hr
      · exact hacc fv2 hl
      · exact hr
  simp only [buildResponse]
  by_cases hodfv : g.odfvs.isEmpty
  · simp only [if_pos hodfv]
    exact hresp2 g.fvs _ hresp1
  · simp only [if_neg hodfv]
    intro fv hfv
    rcases augment_results_mem _ featureRefs allOdfvs fullFeatureNames
        transform fv hfv with hl | ⟨name, col, hcol, heq⟩
    · exact hresp2 g.fvs _ hresp1 fv hl
    · have hclen := htrans name _ col hcol
      subst heq
      simp [hclen]

theorem dropUnneededColumns_results_subset {V : Type} (resp : Response V)
    (requestedResultRowNames : List String) :
    ∀ fv ∈ (dropUnneededColumns resp requestedResultRowNames).results,
      fv ∈ resp.results := by
  have haux : ∀ (idxs : List Nat) (r : Response V),
      ∀ fv ∈ (idxs.foldl (fun r idx =>
        { featureNames := r.featureNames.eraseIdx idx,
          results := r.results.eraseIdx idx }) r).results,
      fv ∈ r.results := by
    intro idxs
    induction idxs with
    | nil => intro r fv hfv; exact hfv
    | cons i t ih =>
      intro r fv hfv
      rw [List.foldl_cons] at hfv
      exact (List.eraseIdx_sublist r.results i).subset (ih _ fv hfv)
  intro fv hfv
  simp only [dropUnneededColumns] at hfv
  exact haux _ _ fv hfv


theorem getOnlineFeaturesModel_ok {V : Type} [DecidableEq V]
    (featureRefs : List FeatureRef) (fullFeatureNames : Bool)
    (allFvs : List FeatureView) (allOdfvs : List OnDemandFeatureView)
    (allRfvs : List RequestFeatureView)
    (entityNameToJoinKey : List (String × String))
    (entityValues : List (String × List V)) (dummyVal nullV : V)
    (le : List V → List V → Bool)
    (onlineRead : String → List (List (String × V)) →
      List (Option Nat × Option (List (String × V))))
    (transform : String → Response V → List (String × List V))
    (resp : Response V)
    (hok : getOnlineFeaturesModel featureRefs fullFeatureNames allFvs
        allOdfvs allRfvs entityNameToJoinKey entityValues dummyVal nullV
        le onlineRead transform = .ok resp) :
    ∃ numRows g split,
      validateEntityValues entityValues = .ok numRows
        ∧ groupFeatureRefs featureRefs allFvs allOdfvs allRfvs = .ok g
        ∧ splitEntityColumns
            (dedupFirst ((g.odfvs.map (fun p => p.1.requestSchema)).flatten))
            (dedupFirst ((g.rfvs.map (fun p => p.1.features)).flatten))
            (entityNameToJoinKey.map (fun p => p.2)) entityNameToJoinKey
            entityValues [] []
            (featureRefs.map (fun r =>
              if fullFeatureNames then r.view ++ "__" ++ r.feat else r.feat))
            = .ok split
        ∧ resp = dropUnneededColumns
            (buildResponse nullV dummyVal le numRows fullFeatureNames
              featureRefs g allOdfvs entityNameToJoinKey split.1 split.2.1
              onlineRead transform) split.2.2 := by
  rw [getOnlineFeaturesModel] at hok
  split at hok
  · cases hok
  · split at hok
    · cases hok
    · rename_i numRows hN
      split at hok
      · dsimp only [] at hok
        split at hok
        · cases hok
        · cases hok
      · rename_i g hg
        dsimp only [] at hok
        split at hok
        · split at hok
          · cases hok
          · rename_i split2 hsplit
            split at hok
            · rename_i hlen2
              injection hok with h
              exact ⟨numRows, g, split2, hN, hg, hsplit, h.symm⟩
            · cases hok
        · cases hok

/-- Claim C3: for every valid request — equal-length entity-value
columns of length `N`, a provider honoring the documented contract of
one returned row per submitted unique key, and (modelled from the spec)
transforms producing whole-batch columns of length `N` — every
FeatureVector surviving the final trim of the returned response has
exactly `N` values, `N` statuses and `N` event timestamps, so the
response's row count is the entity batch row count. -/
theorem response_vector_lengths {V : Type} [DecidableEq V]
    (featureRefs : List FeatureRef) (fullFeatureNames : Bool)
    (allFvs : List FeatureView) (allOdfvs : List OnDemandFeatureView)
    (allRfvs : List RequestFeatureView)
    (entityNameToJoinKey : List (String × String))
    (entityValues : List (String × List V)) (dummyVal nullV : V)
    (le : List V → List V → Bool)
    (onlineRead : String → List (List (String × V)) →
      List (Option Nat × Option (List (String × V))))
    (transform : String → Response V → List (String × List V))
    (N : Nat) (resp : Response V)
    (hN : validateEntityValues entityValues = .ok N)
    (hread : ∀ t keys, (onlineRead t keys).length = keys.length)
    (htrans : ∀ name r, ∀ col ∈ transform name r, col.2.length = N)
    (hok : getOnlineFeaturesModel featureRefs fullFeatureNames allFvs
        allOdfvs allRfvs entityNameToJoinKey entityValues dummyVal nullV
        le onlineRead transform = .ok resp) :
    ∀ fv ∈ resp.results,
      fv.values.length = N ∧ fv.statuses.length = N
        ∧ fv.eventTimestamps.length = N := by
  obtain ⟨numRows, g, split2, hN2, hg, hsplit, hresp⟩ :=
    getOnlineFeaturesModel_ok featureRefs fullFeatureNames allFvs allOdfvs
      allRfvs entityNameToJoinKey entityValues dummyVal nullV le onlineRead
      transform resp hok
  rw [hN] at hN2
  injection hN2 with hNR
  subst hNR
  subst hresp
  intro fv hfv
  have hmem := dropUnneededColumns_results_subset _ _ fv hfv
  have hcols := validateEntityValues_ok entityValues N hN
  have hsv := splitEntityColumns_values (fun v : List V => v.length = N)
    _ _ _ _ entityValues [] [] _ split2 hsplit hcols
    (fun x hx => absurd hx (List.not_mem_nil x))
    (fun x hx => absurd hx (List.not_mem_nil x))
  exact buildResponse_results_length nullV dummyVal le N fullFeatureNames
    featureRefs g allOdfvs entityNameToJoinKey split2.1 split2.2.1
    onlineRead transform hsv.1 hsv.2 hread htrans fv hmem

/-- The `demoResult` run evaluates to `demoResponse`. -/
theorem demoResult_ok : demoResult = Except.ok demoResponse := rfl

/-- Witness for C3 at the concrete `demoResult` run (`N = 3`): the echo
vector of the response has three values, statuses and timestamps. -/
theorem response_vector_lengths_witness :
    (⟨[some 1, some 1, some 2],
      [some FieldStatus.present, some FieldStatus.present,
       some FieldStatus.present],
      [some 0, some 0, some 0]⟩ : FeatureVector Nat).values.length = 3
      ∧ (⟨[some 1, some 1, some 2],
          [some FieldStatus.present, some FieldStatus.present,
           some FieldStatus.present],
          [some 0, some 0, some 0]⟩ :
          FeatureVector Nat).statuses.length = 3
      ∧ (⟨[some 1, some 1, some 2],
          [some FieldStatus.present, some FieldStatus.present,
           some FieldStatus.present],
          [some 0, some 0, some 0]⟩ :
          FeatureVector Nat).eventTimestamps.length = 3 :=
  response_vector_lengths
    [⟨"driver_stats", "conv_rate"⟩, ⟨"pct", "pct"⟩] false
    [⟨"driver_stats", ["driver"], ["conv_rate"], []⟩]
    [⟨"pct", ["pct"], [("driver_stats", ["conv_rate"])], []⟩] []
    [("driver", "driver_id")]
    [("driver_id", [1, 1, 2])] 0 0 natLexLe demoRead demoTransform
    3 demoResponse rfl
    (by
      intro t keys
      simp [demoRead])
    (by
      intro name r col hcol
      simp only [demoTransform, List.mem_singleton] at hcol
      subst hcol
      rfl)
    demoResult_ok
    ⟨[some 1, some 1, some 2],
     [some FieldStatus.present, some FieldStatus.present,
      some FieldStatus.present],
     [some 0, some 0, some 0]⟩ (by decide)

/-! ### The final trim (towards C6) -/

theorem enumFrom_succ_eq_map {α : Type} :
    ∀ (l : List α) (k : Nat),
      List.enumFrom (k + 1) l
        = (List.enumFrom k l).map (fun q => (q.1 + 1, q.2)) := by
  intro l
  induction l with
  | nil => intro k; rfl
  | cons a t ih =>
    intro k
    rw [List.enumFrom_cons, List.enumFrom_cons, List.map_cons, ih (k + 1)]

theorem unneededIdxs_cons {α : Type} (p : α → Bool) (a : α) (t : List α) :
    ((List.enum (a :: t)).filter (fun q => !(p q.2))).map (fun q => q.1)
      = (if p a then [] else [0])
        ++ (((t.enum.filter (fun q => !(p q.2))).map (fun q => q.1)).map
          (fun i => i + 1)) := by
  rw [List.enum_cons]
  have h1 : List.enumFrom 1 t = t.enum.map (fun q => (q.1 + 1, q.2)) := by
    have := enumFrom_succ_eq_map t 0
    simpa [List.enum] using this
  rw [h1, List.filter_cons]
  by_cases hpa : p a
  · have hcond : ¬ ((!p a) = true) := by simp [hpa]
    rw [if_neg hcond, if_pos hpa, List.nil_append]
    rw [List.filter_map, List.map_map, List.map_map]
    simp [Function.comp_def]
  · have hcond : (!p a) = true := by simp [hpa]
    rw [if_pos hcond, if_neg hpa]
    rw [List.filter_map, List.map_cons, List.map_map, List.map_map]
    simp [Function.comp_def]

theorem foldl_eraseIdx_shift {α : Type} (a : α) :
    ∀ (js : List Nat) (t : List α),
      (js.map (fun i => i + 1)).foldl (fun l idx => l.eraseIdx idx) (a :: t)
        = a :: js.foldl (fun l idx => l.eraseIdx idx) t := by
  intro js
  induction js with
  | nil => intro t; rfl
  | cons j jt ih =>
    intro t
    rw [List.map_cons, List.foldl_cons, List.foldl_cons,
      List.eraseIdx_cons_succ, ih]

theorem foldl_eraseIdx_unneeded_eq_filter {α : Type} (p : α → Bool) :
    ∀ l : List α,
      ((((l.enum.filter (fun q => !(p q.2))).map
        (fun q => q.1)).reverse).foldl (fun l2 idx => l2.eraseIdx idx) l)
        = l.filter p := by
  intro l
  induction l with
  | nil => rfl
  | cons a t ih =>
    rw [unneededIdxs_cons]
    by_cases hpa : p a
    · rw [if_pos hpa, List.nil_append, ← List.map_reverse,
        foldl_eraseIdx_shift, ih, List.filter_cons, if_pos hpa]
    · rw [if_neg hpa, List.reverse_append, ← List.map_reverse,
        List.foldl_append, foldl_eraseIdx_shift, ih]
      rw [List.filter_cons, if_neg hpa]
      rfl

theorem dropUnneeded_foldl_featureNames {V : Type} :
    ∀ (idxs : List Nat) (resp : Response V),
      (idxs.foldl (fun r idx =>
        { featureNames := r.featureNames.eraseIdx idx,
          results := r.results.eraseIdx idx }) resp).featureNames
        = idxs.foldl (fun l idx => l.eraseIdx idx) resp.featureNames := by
  intro idxs
  induction idxs with
  | nil => intro resp; rfl
  | cons i t ih =>
    intro resp
    rw [List.foldl_cons, List.foldl_cons, ih]

theorem dropUnneededColumns_featureNames {V : Type} (resp : Response V)
    (requestedResultRowNames : List String) :
    (dropUnneededColumns resp requestedResultRowNames).featureNames
      = resp.featureNames.filter
        (fun n => requestedResultRowNames.contains n) := by
  simp only [dropUnneededColumns]
  rw [dropUnneeded_foldl_featureNames]
  exact foldl_eraseIdx_unneeded_eq_filter
    (fun n => requestedResultRowNames.contains n) resp.featureNames

/-- The join key a caller column resolves to: itself when it already is
a join key, otherwise through the deprecated entity-name mapping. -/
def mappedJoinKeyName (joinKeysSet : List String)
    (entityNameToJoinKey : List (String × String)) (colName : String) :
    Option String :=
  if colName ∈ joinKeysSet then some colName
  else alookup colName entityNameToJoinKey

/-- The requested-result name (if any) that one caller column
contributes during the entity-column split: request-data columns
contribute their own name exactly when they are request-view features,
all other columns contribute their resolved join key. -/
def columnResultName (neededRequestData neededRequestFvFeatures
    joinKeysSet : List String) (entityNameToJoinKey : List (String × String))
    (colName n : String) : Prop :=
  if colName ∈ neededRequestData ∨ colName ∈ neededRequestFvFeatures then
    colName ∈ neededRequestFvFeatures ∧ n = colName
  else mappedJoinKeyName joinKeysSet entityNameToJoinKey colName = some n

theorem splitEntityColumns_names {V : Type}
    (neededRequestData neededRequestFvFeatures joinKeysSet : List String)
    (entityNameToJoinKey : List (String × String)) :
    ∀ (cols jkv rdf : List (String × List V)) (names : List String)
      (out : List (String × List V) × List (String × List V) × List String),
      splitEntityColumns neededRequestData neededRequestFvFeatures
          joinKeysSet entityNameToJoinKey cols jkv rdf names = .ok out →
      ∀ n, n ∈ out.2.2 ↔ n ∈ names ∨ ∃ p ∈ cols,
        columnResultName neededRequestData neededRequestFvFeatures
          joinKeysSet entityNameToJoinKey p.1 n := by
  intro cols
  induction cols with
  | nil =>
    intro jkv rdf names out hok n
    simp only [splitEntityColumns] at hok
    injection hok with h
    subst h
    simp
  | cons c rest ih =>
    intro jkv rdf names out hok n
    by_cases hrd : c.1 ∈ neededRequestData ∨ c.1 ∈ neededRequestFvFeatures
    · simp only [splitEntityColumns, if_pos hrd] at hok
      rw [ih _ _ _ _ hok n]
      by_cases hff : c.1 ∈ neededRequestFvFeatures
      · simp only [if_pos hff, List.mem_cons]
        constructor
        · rintro ((rfl | hn) | ⟨p, hp, hcrn⟩)
          · exact Or.inr ⟨c, Or.inl rfl, by
              simp [columnResultName, hrd, hff]⟩
          · exact Or.inl hn
          · exact Or.inr ⟨p, Or.inr hp, hcrn⟩
        · rintro (hn | ⟨p, hp, hcrn⟩)
          · exact Or.inl (Or.inr hn)
          · rcases hp with rfl | hp2
            · simp only [columnResultName, if_pos hrd] at hcrn
              exact Or.inl (Or.inl hcrn.2)
            · exact Or.inr ⟨p, hp2, hcrn⟩
      · simp only [if_neg hff]
        constructor
        · rintro (hn | ⟨p, hp, hcrn⟩)
          · exact Or.inl hn
          · exact Or.inr ⟨p, List.mem_cons_of_mem _ hp, hcrn⟩
        · rintro (hn | ⟨p, hp, hcrn⟩)
          · exact Or.inl hn
          · rcases List.mem_cons.1 hp with rfl | hp2
            · simp only [columnResultName, if_pos hrd] at hcrn
              exact absurd hcrn.1 hff
            · exact Or.inr ⟨p, hp2, hcrn⟩
    · by_cases hjk : c.1 ∈ joinKeysSet
      · simp only [splitEntityColumns, if_neg hrd, if_pos hjk] at hok
        rw [ih _ _ _ _ hok n]
        simp only [List.mem_cons]
        constructor
        · rintro ((rfl | hn) | ⟨p, hp, hcrn⟩)
          · exact Or.inr ⟨c, Or.inl rfl, by
              simp [columnResultName, hrd, mappedJoinKeyName, hjk]⟩
          · exact Or.inl hn
          · exact Or.inr ⟨p, Or.inr hp, hcrn⟩
        · rintro (hn | ⟨p, hp, hcrn⟩)
          · exact Or.inl (Or.inr hn)
          · rcases hp with rfl | hp2
            · simp only [columnResultName, if_neg hrd, mappedJoinKeyName,
                if_pos hjk, Option.some.injEq] at hcrn
              exact Or.inl (Or.inl hcrn.symm)
            · exact Or.inr ⟨p, hp2, hcrn⟩
      · cases hlk : alookup c.1 entityNameToJoinKey with
        | none =>
          simp only [splitEntityColumns, if_neg hrd, if_neg hjk, hlk] at hok
          cases hok
        | some jk =>
          simp only [splitEntityColumns, if_neg hrd, if_neg hjk, hlk] at hok
          rw [ih _ _ _ _ hok n]
          simp only [List.mem_cons]
          constructor
          · rintro ((rfl | hn) | ⟨p, hp, hcrn⟩)
            · exact Or.inr ⟨c, Or.inl rfl, by
                simp [columnResultName, hrd, mappedJoinKeyName, hjk, hlk]⟩
            · exact Or.inl hn
            · exact Or.inr ⟨p, Or.inr hp, hcrn⟩
          · rintro (hn | ⟨p, hp, hcrn⟩)
            · exact Or.inl (Or.inr hn)
            · rcases hp with rfl | hp2
              · simp only [columnResultName, if_neg hrd, mappedJoinKeyName,
                  if_neg hjk, hlk, Option.some.injEq] at hcrn
                exact Or.inl (Or.inl hcrn.symm)
              · exact Or.inr ⟨p, hp2, hcrn⟩

theorem alookup_isSome_iff_mem_keys {α β : Type} [DecidableEq α] (k : α)
    (l : List (α × β)) :
    (alookup k l).isSome ↔ k ∈ l.map Prod.fst := by
  rw [alookup_isSome_iff]
  constructor
  · rintro ⟨v, hv⟩
    exact List.mem_map.2 ⟨(k, v), hv, rfl⟩
  · intro h
    obtain ⟨p, hp, heq⟩ := List.mem_map.1 h
    refine ⟨p.2, ?_⟩
    have : p = (k, p.2) := by
      rw [← heq]
    rw [← this]
    exact hp

theorem mem_keys_upsert {α β : Type} [DecidableEq α] (l : List (α × β))
    (k : α) (v : β) (x : α) :
    x ∈ (upsert l k v).map Prod.fst ↔ x ∈ l.map Prod.fst ∨ x = k := by
  rw [upsert]
  by_cases hs : (alookup k l).isSome
  · rw [if_pos hs]
    have hkeys : (l.map (fun p => if p.1 = k then (k, v) else p)).map
        Prod.fst = l.map Prod.fst := by
      rw [List.map_map]
      refine List.map_congr_left ?_
      intro p _
      by_cases hpk : p.1 = k
      · simp [hpk]
      · simp [hpk]
    rw [hkeys]
    constructor
    · exact Or.inl
    · rintro (h | rfl)
      · exact h
      · obtain ⟨v2, hv2⟩ := (alookup_isSome_iff x l).1 hs
        exact List.mem_map.2 ⟨(x, v2), hv2, rfl⟩
  · rw [if_neg hs]
    rw [List.map_append, List.mem_append]
    simp

theorem alookup_upsert_isSome_of {α β : Type} [DecidableEq α]
    (l : List (α × β)) (k2 : α) (v : β) (k : α)
    (h : (alookup k l).isSome) : (alookup k (upsert l k2 v)).isSome := by
  rw [alookup_isSome_iff_mem_keys] at h ⊢
  rw [mem_keys_upsert]
  exact Or.inl h

theorem alookup_upsert_self_isSome {α β : Type} [DecidableEq α]
    (l : List (α × β)) (k : α) (v : β) :
    (alookup k (upsert l k v)).isSome := by
  rw [alookup_isSome_iff_mem_keys, mem_keys_upsert]
  exact Or.inr rfl

theorem splitEntityColumns_jkv_mono {V : Type}
    (neededRequestData neededRequestFvFeatures joinKeysSet : List String)
    (entityNameToJoinKey : List (String × String)) :
    ∀ (cols jkv rdf : List (String × List V)) (names : List String)
      (out : List (String × List V) × List (String × List V) × List String),
      splitEntityColumns neededRequestData neededRequestFvFeatures
          joinKeysSet entityNameToJoinKey cols jkv rdf names = .ok out →
      ∀ k, (alookup k jkv).isSome → (alookup k out.1).isSome := by
  intro cols
  induction cols with
  | nil =>
    intro jkv rdf names out hok k hk
    simp only [splitEntityColumns] at hok
    injection hok with h
    subst h
    exact hk
  | cons c rest ih =>
    intro jkv rdf names out hok k hk
    by_cases hrd : c.1 ∈ neededRequestData ∨ c.1 ∈ neededRequestFvFeatures
    · simp only [splitEntityColumns, if_pos hrd] at hok
      exact ih _ _ _ _ hok k hk
    · by_cases hjk : c.1 ∈ joinKeysSet
      · simp only [splitEntityColumns, if_neg hrd, if_pos hjk] at hok
        exact ih _ _ _ _ hok k (alookup_upsert_isSome_of jkv c.1 c.2 k hk)
      · cases hlk : alookup c.1 entityNameToJoinKey with
        | none =>
          simp only [splitEntityColumns, if_neg hrd, if_neg hjk, hlk] at hok
          cases hok
        | some jk =>
          simp only [splitEntityColumns, if_neg hrd, if_neg hjk, hlk] at hok
          exact ih _ _ _ _ hok k (alookup_upsert_isSome_of jkv jk c.2 k hk)

theorem splitEntityColumns_joinKeys {V : Type}
    (neededRequestData neededRequestFvFeatures joinKeysSet : List String)
    (entityNameToJoinKey : List (String × String)) :
    ∀ (cols jkv rdf : List (String × List V)) (names : List String)
      (out : List (String × List V) × List (String × List V) × List String),
      splitEntityColumns neededRequestData neededRequestFvFeatures
          joinKeysSet entityNameToJoinKey cols jkv rdf names = .ok out →
      ∀ p ∈ cols, ¬(p.1 ∈ neededRequestData ∨ p.1 ∈ neededRequestFvFeatures) →
        ∃ jk, mappedJoinKeyName joinKeysSet entityNameToJoinKey p.1 = some jk
          ∧ (alookup jk out.1).isSome := by
  intro cols
  induction cols with
  | nil =>
    intro jkv rdf names out _ p hp
    cases hp
  | cons c rest ih =>
    intro jkv rdf names out hok p hp hprd
    by_cases hrd : c.1 ∈ neededRequestData ∨ c.1 ∈ neededRequestFvFeatures
    · simp only [splitEntityColumns, if_pos hrd] at hok
      rcases List.mem_cons.1 hp with rfl | hp2
      · exact absurd hrd hprd
      · exact ih _ _ _ _ hok p hp2 hprd
    · by_cases hjk : c.1 ∈ joinKeysSet
      · simp only [splitEntityColumns, if_neg hrd, if_pos hjk] at hok
        rcases List.mem_cons.1 hp with rfl | hp2
        · refine ⟨p.1, ?_, ?_⟩
          · rw [mappedJoinKeyName, if_pos hjk]
          · exact splitEntityColumns_jkv_mono _ _ _ _ _ _ _ _ _ hok p.1
              (alookup_upsert_self_isSome jkv p.1 p.2)
        · exact ih _ _ _ _ hok p hp2 hprd
      · cases hlk : alookup c.1 entityNameToJoinKey with
        | none =>
          simp only [splitEntityColumns, if_neg hrd, if_neg hjk, hlk] at hok
          cases hok
        | some jk =>
          simp only [splitEntityColumns, if_neg hrd, if_neg hjk, hlk] at hok
          rcases List.mem_cons.1 hp with rfl | hp2
          · refine ⟨jk, ?_, ?_⟩
            · rw [mappedJoinKeyName, if_neg hjk, hlk]
            · exact splitEntityColumns_jkv_mono _ _ _ _ _ _ _ _ _ hok jk
                (alookup_upsert_self_isSome jkv jk p.2)
          · exact ih _ _ _ _ hok p hp2 hprd

theorem foldl_upsert_isSome {α β : Type} [DecidableEq α] :
    ∀ (l acc : List (α × β)) (k : α), (alookup k acc).isSome →
      (alookup k (l.foldl (fun acc p => upsert acc p.1 p.2) acc)).isSome := by
  intro l
  induction l with
  | nil => intro acc k h; exact h
  | cons q t ih =>
    intro acc k h
    rw [List.foldl_cons]
    exact ih _ k (alookup_upsert_isSome_of acc q.1 q.2 k h)

theorem processTable_featureNames_mono {V : Type} [DecidableEq V]
    (nullV : V) (le : List V → List V → Bool)
    (entityNameToJoinKey : List (String × String))
    (joinKeyValues : List (String × List V))
    (onlineRead : String → List (List (String × V)) →
      List (Option Nat × Option (List (String × V))))
    (fullFeatureNames : Bool) (acc : Response V)
    (tf : FeatureView × List String) :
    ∀ n ∈ acc.featureNames,
      n ∈ (processTable nullV le entityNameToJoinKey joinKeyValues
        onlineRead fullFeatureNames acc tf).featureNames := by
  intro n hn
  simp only [processTable, populateResponseFromFeatureData]
  exact List.mem_append_left _ hn

theorem augmentStep_featureNames_mono {V : Type} (resp : Response V)
    (odfvRefs : List FeatureRef) (fullFeatureNames : Bool)
    (transform : String → Response V → List (String × List V))
    (acc : Response V) (viewName : String) :
    ∀ n ∈ acc.featureNames,
      n ∈ (augmentStep resp odfvRefs fullFeatureNames transform acc
        viewName).featureNames := by
  intro n hn
  simp only [augmentStep]
  exact List.mem_append_left _ hn

theorem buildResponse_featureNames_mem {V : Type} [DecidableEq V]
    (nullV dummyVal : V) (le : List V → List V → Bool) (numRows : Nat)
    (fullFeatureNames : Bool) (featureRefs : List FeatureRef)
    (g : GroupedRefs) (allOdfvs : List OnDemandFeatureView)
    (entityNameToJoinKey : List (String × String))
    (joinKeyValues requestData : List (String × List V))
    (onlineRead : String → List (List (String × V)) →
      List (Option Nat × Option (List (String × V))))
    (transform : String → Response V → List (String × List V))
    (k : String) (h : (alookup k joinKeyValues).isSome) :
    k ∈ (buildResponse nullV dummyVal le numRows fullFeatureNames
      featureRefs g allOdfvs entityNameToJoinKey joinKeyValues requestData
      onlineRead transform).featureNames := by
  have hmerged : (alookup k (requestData.foldl
      (fun acc p => upsert acc p.1 p.2) joinKeyValues)).isSome :=
    foldl_upsert_isSome requestData joinKeyValues k h
  have hresp1 : k ∈ (populateResultRowsFromColumnar (⟨[], []⟩ : Response V)
      (requestData.foldl (fun acc p => upsert acc p.1 p.2)
        joinKeyValues)).featureNames := by
    simp only [populateResultRowsFromColumnar, List.nil_append]
    rw [alookup_isSome_iff_mem_keys] at hmerged
    exact hmerged
  have hresp2 : ∀ (tables : List (FeatureView × List String))
      (acc : Response V) (jkv2 : List (String × List V)),
      k ∈ acc.featureNames →
      k ∈ (tables.foldl (processTable nullV le entityNameToJoinKey jkv2
        onlineRead fullFeatureNames) acc).featureNames := by
    intro tables
    induction tables with
    | nil => intro acc jkv2 hacc; exact hacc
    | cons tf rest ih =>
      intro acc jkv2 hacc
      rw [List.foldl_cons]
      exact ih _ _ (processTable_featureNames_mono nullV le
        entityNameToJoinKey jkv2 onlineRead fullFeatureNames acc tf k hacc)
  have haug : ∀ (resp2 : Response V), k ∈ resp2.featureNames →
      k ∈ (augmentResponseWithOnDemandTransforms resp2 featureRefs allOdfvs
        fullFeatureNames transform).featureNames := by
    intro resp2 hk2
    simp only [augmentResponseWithOnDemandTransforms]
    have haux : ∀ (odfvRefs : List FeatureRef) (vs : List String)
        (acc : Response V), k ∈ acc.featureNames →
        k ∈ (vs.foldl (augmentStep resp2 odfvRefs fullFeatureNames
          transform) acc).featureNames := by
      intro odfvRefs vs
      induction vs with
      | nil => intro acc hacc; exact hacc
      | cons v vt ih =>
        intro acc hacc
        rw [List.foldl_cons]
        exact ih _ (augmentStep_featureNames_mono resp2 odfvRefs
          fullFeatureNames transform acc v k hacc)
    exact haux _ _ resp2 hk2
  simp only [buildResponse]
  by_cases hodfv : g.odfvs.isEmpty
  · simp only [if_pos hodfv]
    exact hresp2 g.fvs _ _ hresp1
  · simp only [if_neg hodfv]
    exact haug _ (hresp2 g.fvs _ _ hresp1)

theorem contains_eq_true_iff {α : Type} [DecidableEq α] (l : List α)
    (a : α) : l.contains a = true ↔ a ∈ l := by
  simp [List.contains_iff_exists_mem_beq]

/-- A concrete provider for the trim scenario: one stored row. -/
def trimDemoRead (_t : String) (_keys : List (List (String × Nat))) :
    List (Option Nat × Option (List (String × Nat))) :=
  [(some 5, some [("conv_rate", 7)])]

/-- A trivial transform (no computed views are requested). -/
def trimDemoTransform (_name : String) (_resp : Response Nat) :
    List (String × List Nat) :=
  []

/-- A concrete run requesting only `driver_stats:conv_rate` in bare
naming mode, with one entity row keyed by `driver_id`. -/
def trimDemoResult : Except FeastError (Response Nat) :=
  getOnlineFeaturesModel (V := Nat) [⟨"driver_stats", "conv_rate"⟩] false
    [⟨"driver_stats", ["driver"], ["conv_rate"], []⟩] [] []
    [("driver", "driver_id")] [("driver_id", [1])] 0 0 natLexLe
    trimDemoRead trimDemoTransform

/-- The response computed by `trimDemoResult`. -/
def trimDemoResponse : Response Nat :=
  ⟨["driver_id", "conv_rate"],
   [⟨[some 1], [some FieldStatus.present], [some 0]⟩,
    ⟨[some 7], [some FieldStatus.present], [some 5]⟩]⟩

/-- The `trimDemoResult` run evaluates to `trimDemoResponse`. -/
theorem trimDemo_ok : trimDemoResult = Except.ok trimDemoResponse := rfl

/-- Counterexample to C6 as stated: in the `trimDemoResult` run only
`driver_stats:conv_rate` is requested, so the originally-requested
result-name set is `{conv_rate}` in bare mode (or
`{driver_stats__conv_rate}` qualified); yet the join-key echo column
`driver_id` — used purely as a lookup input, never requested —
survives the final trim, because `_get_online_features` adds every
caller join key to `requested_result_row_names`. -/
theorem final_trim_counterexample :
    trimDemoResult = .ok trimDemoResponse
      ∧ "driver_id" ∈ trimDemoResponse.featureNames
      ∧ "driver_id" ∉ ([⟨"driver_stats", "conv_rate"⟩] :
          List FeatureRef).map (fun r => r.feat)
      ∧ "driver_id" ∉ ([⟨"driver_stats", "conv_rate"⟩] :
          List FeatureRef).map (fun r => r.view ++ "__" ++ r.feat) :=
  ⟨rfl, by decide, by decide, by decide⟩

/-- Claim C6 (amended): the final trim removes exactly the response
columns whose output name is not in `requested_result_row_names`, and
that set consists of the originally-requested output names, every
caller-supplied request-data column that is a request-view feature, and
the resolved join key of every other caller-supplied column.  Hence
request-data columns used purely as computed-table inputs, and
standard-table features pulled in transitively as transform inputs, are
absent from the response unless separately requested — but join-key
echo columns are always retained, requested or not. -/
theorem final_trim_amended {V : Type} [DecidableEq V]
    (featureRefs : List FeatureRef) (fullFeatureNames : Bool)
    (allFvs : List FeatureView) (allOdfvs : List OnDemandFeatureView)
    (allRfvs : List RequestFeatureView)
    (entityNameToJoinKey : List (String × String))
    (entityValues : List (String × List V)) (dummyVal nullV : V)
    (le : List V → List V → Bool)
    (onlineRead : String → List (List (String × V)) →
      List (Option Nat × Option (List (String × V))))
    (transform : String → Response V → List (String × List V))
    (resp : Response V)
    (hok : getOnlineFeaturesModel featureRefs fullFeatureNames allFvs
        allOdfvs allRfvs entityNameToJoinKey entityValues dummyVal nullV
        le onlineRead transform = .ok resp) :
    ∃ numRows g split,
      validateEntityValues entityValues = .ok numRows
        ∧ groupFeatureRefs featureRefs allFvs allOdfvs allRfvs = .ok g
        ∧ splitEntityColumns
            (dedupFirst ((g.odfvs.map (fun p => p.1.requestSchema)).flatten))
            (dedupFirst ((g.rfvs.map (fun p => p.1.features)).flatten))
            (entityNameToJoinKey.map (fun p => p.2)) entityNameToJoinKey
            entityValues [] []
            (featureRefs.map (fun r =>
              if fullFeatureNames then r.view ++ "__" ++ r.feat else r.feat))
            = .ok split
        ∧ resp.featureNames
            = (buildResponse nullV dummyVal le numRows fullFeatureNames
                featureRefs g allOdfvs entityNameToJoinKey split.1 split.2.1
                onlineRead transform).featureNames.filter
              (fun n => split.2.2.contains n)
        ∧ (∀ n, n ∈ split.2.2 ↔
            n ∈ featureRefs.map (fun r =>
              if fullFeatureNames then r.view ++ "__" ++ r.feat else r.feat)
            ∨ ∃ p ∈ entityValues,
                columnResultName
                  (dedupFirst
                    ((g.odfvs.map (fun p => p.1.requestSchema)).flatten))
                  (dedupFirst ((g.rfvs.map (fun p => p.1.features)).flatten))
                  (entityNameToJoinKey.map (fun p => p.2))
                  entityNameToJoinKey p.1 n)
        ∧ (∀ p ∈ entityValues,
            ¬(p.1 ∈ dedupFirst
                ((g.odfvs.map (fun p => p.1.requestSchema)).flatten)
              ∨ p.1 ∈ dedupFirst
                ((g.rfvs.map (fun p => p.1.features)).flatten)) →
            ∃ jk, mappedJoinKeyName (entityNameToJoinKey.map (fun p => p.2))
                entityNameToJoinKey p.1 = some jk
              ∧ jk ∈ resp.featureNames) := by
  obtain ⟨numRows, g, split2, hN, hg, hsplit, hresp⟩ :=
    getOnlineFeaturesModel_ok featureRefs fullFeatureNames allFvs allOdfvs
      allRfvs entityNameToJoinKey entityValues dummyVal nullV le onlineRead
      transform resp hok
  refine ⟨numRows, g, split2, hN, hg, hsplit, ?_, ?_, ?_⟩
  · rw [hresp, dropUnneededColumns_featureNames]
  · exact splitEntityColumns_names _ _ _ _ entityValues [] [] _ split2
      hsplit
  · intro p hp hprd
    obtain ⟨jk, hmap, hsome⟩ := splitEntityColumns_joinKeys _ _ _ _
      entityValues [] [] _ split2 hsplit p hp hprd
    refine ⟨jk, hmap, ?_⟩
    rw [hresp, dropUnneededColumns_featureNames, List.mem_filter]
    constructor
    · exact buildResponse_featureNames_mem nullV dummyVal le numRows
        fullFeatureNames featureRefs g allOdfvs entityNameToJoinKey
        split2.1 split2.2.1 onlineRead transform jk hsome
    · have hjk2 : jk ∈ split2.2.2 :=
        (splitEntityColumns_names _ _ _ _ entityValues [] [] _ split2
          hsplit jk).2 (Or.inr ⟨p, hp, by
            rw [columnResultName, if_neg hprd]
            exact hmap⟩)
      exact (contains_eq_true_iff _ _).2 hjk2

/-- Witness for the amended C6 at the concrete `trimDemoResult` run: the
unrequested caller join key `driver_id` resolves to itself and survives
the trim. -/
theorem final_trim_amended_witness :
    ∃ jk, mappedJoinKeyName
        ([("driver", "driver_id")].map (fun p => p.2))
        [("driver", "driver_id")] "driver_id" = some jk
      ∧ jk ∈ trimDemoResponse.featureNames := by
  obtain ⟨numRows, g, split, hN, hg, hsplit, hfilter, hiff, hjk⟩ :=
    final_trim_amended [⟨"driver_stats", "conv_rate"⟩] false
      [⟨"driver_stats", ["driver"], ["conv_rate"], []⟩] [] []
      [("driver", "driver_id")] [("driver_id", [1])] 0 0 natLexLe
      trimDemoRead trimDemoTransform trimDemoResponse trimDemo_ok
  have hgc : groupFeatureRefs [⟨"driver_stats", "conv_rate"⟩]
      [⟨"driver_stats", ["driver"], ["conv_rate"], []⟩] [] []
      = Except.ok (GroupedRefs.mk
        [(⟨"driver_stats", ["driver"], ["conv_rate"], []⟩, ["conv_rate"])]
        [] [] []) := rfl
  rw [hgc] at hg
  injection hg with hg2
  subst hg2
  exact hjk ("driver_id", [1]) (by decide) (by decide)
